import Mathlib

/-!
A verification development for the scouting-troop-stats sync pipeline.

The Python source (src/scouting_db/db.py, api.py, cli.py, native_sync.py) is
shallowly embedded here:

* JSON requirement nodes become the inductive `RTree`.  Python truthiness is
  modelled explicitly: a missing/`None`/`0` id is falsy (`keptId`), a
  missing/empty string is falsy (`pyStrTruthy`), and the idiom
  `d.get(k1) or d.get(k2) or []` is falsy-fallthrough.  Since every access to
  a node's child lists in the source is through `or`-chains (for which an
  absent key, `None` and `[]` are indistinguishable), child lists are
  represented as plain `List RTree` with `[]` standing for all falsy cases.
* SQLite tables become association lists keyed by the conflict key of the
  `INSERT OR REPLACE` / `ON CONFLICT` statement that writes them, following
  the logical data model (one row per natural key; surrogate rowids are not
  modelled).  `INSERT OR REPLACE` is `Table.insertReplace`, `INSERT OR
  IGNORE` is `Table.insertIgnore`.
* Each storage routine is a pure function from its inputs and the prior
  table state to the returned count and the new table state.
-/

namespace Scouting

/-! ### Python-truthiness helpers -/

/-- Truthiness of an optional string: absent and `""` are falsy. -/
def pyStrTruthy : Option String → Bool
  | some s => s ≠ ""
  | none => false

/-- `a or b` on optional strings (falsy values fall through to `b`). -/
def pyOrOpt (a b : Option String) : Option String :=
  if pyStrTruthy a then a else b

/-- `a or b or ... or d` resolved to a plain string default, as in
`pos.get("positionTitle") or pos.get("position") or pos.get("title") or "Unknown"`. -/
def pyOrStr (a : Option String) (d : String) : String :=
  match a with
  | some s => if s = "" then d else s
  | none => d

/-- `_int_or_none` from db.py: `int(val) if val else None` (0 is falsy). -/
def intOrNone : Option Int → Option Int
  | some v => if v = 0 then none else some v
  | none => none

/-- `a or b` on optional ints (absent and 0 are falsy). -/
def pyOrInt (a b : Option Int) : Option Int :=
  match a with
  | some v => if v = 0 then b else some v
  | none => b

/-- `1 if str(x).lower() == "true" else 0` with default `"True"`, as applied to
the `required` field. -/
def pyRequiredFlag : Option String → Int
  | some s => if s.toLower = "true" then 1 else 0
  | none => 1

/-! ### Tables

An SQLite table is modelled as an association list from the conflict key of
the statement writing it to the remaining columns.  `insertReplace` removes
any existing row with the key and adds the new one; `insertIgnore` keeps an
existing row. -/

abbrev Table (κ ρ : Type) : Type := List (κ × ρ)

def Table.lookup {κ ρ : Type} [DecidableEq κ] (t : Table κ ρ) (k : κ) : Option ρ :=
  (List.find? (fun e => decide (e.1 = k)) t).map (fun e => e.2)

def Table.insertReplace {κ ρ : Type} [DecidableEq κ] (k : κ) (v : ρ) (t : Table κ ρ) :
    Table κ ρ :=
  (k, v) :: List.filter (fun e => !(decide (e.1 = k))) t

def Table.insertIgnore {κ ρ : Type} [DecidableEq κ] (k : κ) (v : ρ) (t : Table κ ρ) :
    Table κ ρ :=
  if (t.lookup k).isSome then t else (k, v) :: t

/-- Apply a list of `INSERT OR REPLACE` writes in order. -/
def applyWrites {κ ρ : Type} [DecidableEq κ] (ws : List (κ × ρ)) (t : Table κ ρ) :
    Table κ ρ :=
  ws.foldl (fun acc e => Table.insertReplace e.1 e.2 acc) t

/-! ### Requirement trees -/

/-- The scalar fields a requirement node may carry (beyond its id, completion
dates and child lists).  `raw` stands for `json.dumps(req)`. -/
structure ReqFields where
  requirementNumber : Option String := none
  listNumber : Option String := none
  short : Option String := none
  name : Option String := none
  required : Option String := none
  childrenRequired : Option Int := none
  sortOrder : Option String := none
  eagleMBRequired : Option Int := none
  totalMBRequired : Option Int := none
  serviceHoursRequired : Option Int := none
  monthsSinceLastRankRequired : Option Int := none
  raw : String := ""
deriving DecidableEq, Repr

/-- A JSON requirement node: optional id, scalar fields, the two completion
date fields, and the two possible child-list fields (`requirements` and
`children`); `[]` stands for an absent, null or empty child list. -/
inductive RTree : Type where
  | node (ident : Option Int) (fields : ReqFields)
      (dateCompleted : Option String) (dateEarned : Option String)
      (reqs : List RTree) (children : List RTree)

def RTree.identOf : RTree → Option Int
  | .node i _ _ _ _ _ => i

def RTree.fieldsOf : RTree → ReqFields
  | .node _ f _ _ _ _ => f

/-- `if not req_id: continue` — a node is processed only when its id is truthy. -/
def RTree.keptId : RTree → Bool
  | .node i _ _ _ _ _ =>
    match i with
    | some v => v ≠ 0
    | none => false

/-- `req.get("requirements") or req.get("children") or []`. -/
def RTree.effKids : RTree → List RTree
  | .node _ _ _ _ [] cs => cs
  | .node _ _ _ _ (r :: rs) _ => r :: rs

/-- `req.get("dateCompleted") or req.get("dateEarned")` on a node. -/
def RTree.complDate : RTree → Option String
  | .node _ _ dc de _ _ => pyOrOpt dc de

/-- Input to the four tree-flattening upserts: either a bare list of nodes or
a wrapper object with `requirements` / `value` keys (child lists again
falsy-collapsed to `List`). -/
inductive ReqPayload : Type where
  | list (ts : List RTree)
  | obj (requirementsField : List RTree) (valueField : List RTree)

/-- `requirements.get("requirements") or requirements.get("value") or []`
applied when the input is a dict; a bare list is walked as-is. -/
def unwrapPayload : ReqPayload → List RTree
  | .list ts => ts
  | .obj [] vf => vf
  | .obj (t :: ts) _ => t :: ts

/-- The number of nodes a tree-flattening walk stores, following the spec:
nodes carrying a non-empty (truthy) identifier are counted; a node without
one is skipped together with its entire subtree. -/
def countKept : List RTree → Nat
  | [] => 0
  | .node ident fl dc de rs cs :: ts =>
    (match ident with
     | some i =>
       if i = 0 then 0
       else 1 + (match rs with
                 | [] => countKept cs
                 | r :: rl => countKept (r :: rl))
     | none => 0) + countKept ts

/-! ### The generic walks

`upsert_requirements` and `upsert_mb_requirements` share a `_walk(reqs,
parent_id)` threading the parent id; `store_youth_rank_requirements` and
`store_youth_mb_requirements` share a `_walk(reqs)` without one.  Each is
embedded once, parameterised by the row-shaping function of the call site
(in the source the scoping keys are free variables of the closure; here they
are captured by the `shape` argument). -/

/-- The definition walk: for each node with a truthy id, build the row via
`shape req_id parent node`, `INSERT OR REPLACE` it, bump the count, and
recurse into `requirements`-or-`children` passing the node's id as parent.
`parent = int(parent_id) if parent_id else None` is `intOrNone`. -/
def defnWalk {κ ρ : Type} [DecidableEq κ] (shape : Int → Option Int → RTree → κ × ρ) :
    List RTree → Option Int → Table κ ρ × Nat → Table κ ρ × Nat
  | [], _, st => st
  | .node ident fl dc de rs cs :: ts, parentId, (tbl, count) =>
    match ident with
    | some i =>
      if i = 0 then defnWalk shape ts parentId (tbl, count)
      else
        defnWalk shape ts parentId
          (match rs with
           | [] =>
             defnWalk shape cs (some i)
               (Table.insertReplace (shape i (intOrNone parentId) (.node ident fl dc de rs cs)).1
                 (shape i (intOrNone parentId) (.node ident fl dc de rs cs)).2 tbl, count + 1)
           | r :: rl =>
             defnWalk shape (r :: rl) (some i)
               (Table.insertReplace (shape i (intOrNone parentId) (.node ident fl dc de rs cs)).1
                 (shape i (intOrNone parentId) (.node ident fl dc de rs cs)).2 tbl, count + 1))
    | none => defnWalk shape ts parentId (tbl, count)

/-- The completion walk: same traversal, but no parent id is threaded. -/
def complWalk {κ ρ : Type} [DecidableEq κ] (shape : Int → RTree → κ × ρ) :
    List RTree → Table κ ρ × Nat → Table κ ρ × Nat
  | [], st => st
  | .node ident fl dc de rs cs :: ts, (tbl, count) =>
    match ident with
    | some i =>
      if i = 0 then complWalk shape ts (tbl, count)
      else
        complWalk shape ts
          (match rs with
           | [] =>
             complWalk shape cs
               (Table.insertReplace (shape i (.node ident fl dc de rs cs)).1
                 (shape i (.node ident fl dc de rs cs)).2 tbl, count + 1)
           | r :: rl =>
             complWalk shape (r :: rl)
               (Table.insertReplace (shape i (.node ident fl dc de rs cs)).1
                 (shape i (.node ident fl dc de rs cs)).2 tbl, count + 1))
    | none => complWalk shape ts (tbl, count)

/-- The ordered list of `INSERT OR REPLACE` writes the definition walk emits. -/
def defnWrites {κ ρ : Type} (shape : Int → Option Int → RTree → κ × ρ) :
    List RTree → Option Int → List (κ × ρ)
  | [], _ => []
  | .node ident fl dc de rs cs :: ts, parentId =>
    match ident with
    | some i =>
      if i = 0 then defnWrites shape ts parentId
      else
        shape i (intOrNone parentId) (.node ident fl dc de rs cs) ::
          ((match rs with
            | [] => defnWrites shape cs (some i)
            | r :: rl => defnWrites shape (r :: rl) (some i)) ++
           defnWrites shape ts parentId)
    | none => defnWrites shape ts parentId

/-- The ordered list of writes the completion walk emits. -/
def complWrites {κ ρ : Type} (shape : Int → RTree → κ × ρ) :
    List RTree → List (κ × ρ)
  | [] => []
  | .node ident fl dc de rs cs :: ts =>
    match ident with
    | some i =>
      if i = 0 then complWrites shape ts
      else
        shape i (.node ident fl dc de rs cs) ::
          ((match rs with
            | [] => complWrites shape cs
            | r :: rl => complWrites shape (r :: rl)) ++
           complWrites shape ts)
    | none => complWrites shape ts

theorem applyWrites_nil {κ ρ : Type} [DecidableEq κ] (t : Table κ ρ) :
    applyWrites ([] : List (κ × ρ)) t = t := rfl

theorem applyWrites_cons {κ ρ : Type} [DecidableEq κ] (w : κ × ρ) (ws : List (κ × ρ))
    (t : Table κ ρ) :
    applyWrites (w :: ws) t = applyWrites ws (Table.insertReplace w.1 w.2 t) := rfl

theorem applyWrites_append {κ ρ : Type} [DecidableEq κ] (a b : List (κ × ρ))
    (t : Table κ ρ) : applyWrites (a ++ b) t = applyWrites b (applyWrites a t) := by
  simp [applyWrites, List.foldl_append]

/-- The threaded definition walk is the accumulated effect of its write list. -/
theorem defnWalk_eq_writes {κ ρ : Type} [DecidableEq κ]
    (shape : Int → Option Int → RTree → κ × ρ) (ts : List RTree) (p : Option Int)
    (st : Table κ ρ × Nat) :
    defnWalk shape ts p st =
      (applyWrites (defnWrites shape ts p) st.1, st.2 + (defnWrites shape ts p).length) := by
  induction ts, p, st using defnWalk.induct shape with
  | case1 p st => simp [defnWalk, defnWrites, applyWrites]
  | case2 fl dc de rs cs ts p tbl c ih =>
    cases rs <;> simpa [defnWalk, defnWrites] using ih
  | case3 fl dc de rs cs ts p tbl c v hv ihkids ihts =>
    cases rs with
    | nil =>
      dsimp only at ihkids ihts
      simp only [defnWalk, defnWrites, if_neg hv]
      rw [ihkids] at ihts ⊢
      rw [ihts]
      simp [applyWrites_cons, applyWrites_append]
      omega
    | cons r rl =>
      dsimp only at ihkids ihts
      simp only [defnWalk, defnWrites, if_neg hv]
      rw [ihkids] at ihts ⊢
      rw [ihts]
      simp [applyWrites_cons, applyWrites_append]
      omega
  | case4 fl dc de rs cs ts p tbl c ih =>
    cases rs <;> simpa [defnWalk, defnWrites] using ih

/-- The threaded completion walk is the accumulated effect of its write list. -/
theorem complWalk_eq_writes {κ ρ : Type} [DecidableEq κ]
    (shape : Int → RTree → κ × ρ) (ts : List RTree) (st : Table κ ρ × Nat) :
    complWalk shape ts st =
      (applyWrites (complWrites shape ts) st.1, st.2 + (complWrites shape ts).length) := by
  induction ts, st using complWalk.induct shape with
  | case1 st => simp [complWalk, complWrites, applyWrites]
  | case2 fl dc de rs cs ts tbl c ih =>
    cases rs <;> simpa [complWalk, complWrites] using ih
  | case3 fl dc de rs cs ts tbl c v hv ihkids ihts =>
    cases rs with
    | nil =>
      dsimp only at ihkids ihts
      simp only [complWalk, complWrites, if_neg hv]
      rw [ihkids] at ihts ⊢
      rw [ihts]
      simp [applyWrites_cons, applyWrites_append]
      omega
    | cons r rl =>
      dsimp only at ihkids ihts
      simp only [complWalk, complWrites, if_neg hv]
      rw [ihkids] at ihts ⊢
      rw [ihts]
      simp [applyWrites_cons, applyWrites_append]
      omega
  | case4 fl dc de rs cs ts tbl c ih =>
    cases rs <;> simpa [complWalk, complWrites] using ih

/-- The definition walk writes exactly one row per kept node; the parent id
does not influence which nodes are visited. -/
theorem defnWrites_length {κ ρ : Type} (shape : Int → Option Int → RTree → κ × ρ)
    (ts : List RTree) (p : Option Int) :
    (defnWrites shape ts p).length = countKept ts := by
  induction ts, p using defnWrites.induct shape with
  | case1 p => simp [defnWrites, countKept]
  | case2 fl dc de rs cs ts p ih =>
    cases rs <;> simpa [defnWrites, countKept] using ih
  | case3 fl dc de rs cs ts p v hv ih1 ih2 =>
    cases rs with
    | nil =>
      simp only [defnWrites, countKept, if_neg hv] at ih1 ih2 ⊢
      simp [ih1, ih2]
      omega
    | cons r rl =>
      simp only [defnWrites, countKept, if_neg hv] at ih1 ih2 ⊢
      simp [ih1, ih2]
      omega
  | case4 fl dc de rs cs ts p ih =>
    cases rs <;> simpa [defnWrites, countKept] using ih

/-- The completion walk writes exactly one row per kept node. -/
theorem complWrites_length {κ ρ : Type} (shape : Int → RTree → κ × ρ)
    (ts : List RTree) :
    (complWrites shape ts).length = countKept ts := by
  induction ts using complWrites.induct shape with
  | case1 => simp [complWrites, countKept]
  | case2 fl dc de rs cs ts ih =>
    cases rs <;> simpa [complWrites, countKept] using ih
  | case3 fl dc de rs cs ts v hv ih1 ih2 =>
    cases rs with
    | nil =>
      simp only [complWrites, countKept, if_neg hv] at ih1 ih2 ⊢
      simp [ih1, ih2]
      omega
    | cons r rl =>
      simp only [complWrites, countKept, if_neg hv] at ih1 ih2 ⊢
      simp [ih1, ih2]
      omega
  | case4 fl dc de rs cs ts ih =>
    cases rs <;> simpa [complWrites, countKept] using ih

/-! ### Idempotence of replayed `INSERT OR REPLACE` writes -/

def keysOf {κ ρ : Type} (ws : List (κ × ρ)) : List κ := ws.map Prod.fst

theorem filter_notin_filter_ne {κ ρ : Type} [DecidableEq κ] (k : κ) (ks : List κ)
    (hk : k ∈ ks) (l : List (κ × ρ)) :
    List.filter (fun e => !(decide (e.1 ∈ ks)))
        (List.filter (fun e => !(decide (e.1 = k))) l) =
      List.filter (fun e => !(decide (e.1 ∈ ks))) l := by
  induction l with
  | nil => rfl
  | cons a l ih =>
    by_cases h1 : a.1 = k
    · have h2 : a.1 ∈ ks := h1 ▸ hk
      simp [-List.filter_filter, List.filter_cons, h1, h2, hk, ih]
    · by_cases h2 : a.1 ∈ ks <;> simp [-List.filter_filter, List.filter_cons, h1, h2, ih]

theorem filter_notin_cons_key {κ ρ : Type} [DecidableEq κ] (k : κ) (ks : List κ)
    (l : List (κ × ρ)) :
    List.filter (fun e => !(decide (e.1 ∈ ks)))
        (List.filter (fun e => !(decide (e.1 = k))) l) =
      List.filter (fun e => !(decide (e.1 ∈ k :: ks))) l := by
  induction l with
  | nil => rfl
  | cons a l ih =>
    by_cases h1 : a.1 = k
    · simp [-List.filter_filter, List.filter_cons, h1, ih]
    · by_cases h2 : a.1 ∈ ks <;> simp [-List.filter_filter, List.filter_cons, h1, h2, ih]

theorem filter_notin_insertReplace {κ ρ : Type} [DecidableEq κ] (k : κ) (v : ρ)
    (ks : List κ) (hk : k ∈ ks) (l : Table κ ρ) :
    List.filter (fun e => !(decide (e.1 ∈ ks))) (Table.insertReplace k v l) =
      List.filter (fun e => !(decide (e.1 ∈ ks))) l := by
  simp only [Table.insertReplace, List.filter_cons]
  have hfalse : (!(decide (k ∈ ks))) = false := by simp [hk]
  rw [hfalse]
  simp only [Bool.false_eq_true, if_false]
  exact filter_notin_filter_ne k ks hk l

/-- `applyWrites ws` only depends on the rows whose keys `ws` does not touch. -/
theorem applyWrites_congr {κ ρ : Type} [DecidableEq κ] (ws : List (κ × ρ)) :
    ∀ l₁ l₂ : Table κ ρ,
      List.filter (fun e => !(decide (e.1 ∈ keysOf ws))) l₁ =
        List.filter (fun e => !(decide (e.1 ∈ keysOf ws))) l₂ →
      applyWrites ws l₁ = applyWrites ws l₂ := by
  induction ws with
  | nil =>
    intro l₁ l₂ h
    simpa [applyWrites, keysOf, List.filter_true] using h
  | cons w ws ih =>
    intro l₁ l₂ h
    rw [applyWrites_cons, applyWrites_cons]
    apply ih
    simp only [Table.insertReplace, List.filter_cons]
    rw [filter_notin_cons_key w.1 (keysOf ws) l₁, filter_notin_cons_key w.1 (keysOf ws) l₂]
    have hkeys : keysOf (w :: ws) = w.1 :: keysOf ws := rfl
    rw [hkeys] at h
    rw [h]

/-- Writes never disturb rows whose keys lie outside a superset of the
written keys. -/
theorem applyWrites_filter_frame {κ ρ : Type} [DecidableEq κ] (ws : List (κ × ρ))
    (ks : List κ) (hsub : ∀ k ∈ keysOf ws, k ∈ ks) :
    ∀ l : Table κ ρ,
      List.filter (fun e => !(decide (e.1 ∈ ks))) (applyWrites ws l) =
        List.filter (fun e => !(decide (e.1 ∈ ks))) l := by
  induction ws with
  | nil => intro l; rfl
  | cons w ws ih =>
    intro l
    have hw : w.1 ∈ ks := hsub w.1 (by simp [keysOf])
    have hsub2 : ∀ k ∈ keysOf ws, k ∈ ks := by
      intro k hk
      apply hsub
      simp only [keysOf, List.map_cons, List.mem_cons]
      exact Or.inr hk
    rw [applyWrites_cons, ih hsub2]
    exact filter_notin_insertReplace w.1 w.2 ks hw l

/-- Replaying the same write list is a no-op on the resulting table. -/
theorem applyWrites_idem {κ ρ : Type} [DecidableEq κ] (ws : List (κ × ρ))
    (l : Table κ ρ) : applyWrites ws (applyWrites ws l) = applyWrites ws l :=
  applyWrites_congr ws _ _ (applyWrites_filter_frame ws (keysOf ws) (fun _ h => h) l)

/-! ### The four tree-flattening upserts (db.py) -/

/-- A row of the `requirements` table, keyed by its `id` column. -/
structure ReqRow where
  rankId : Int
  parentRequirementId : Option Int
  requirementNumber : Option String
  listNumber : Option String
  short : Option String
  name : Option String
  required : Int
  childrenRequired : Option Int
  sortOrder : Option String
  eagleMbRequired : Option Int
  totalMbRequired : Option Int
  serviceHoursRequired : Option Int
  monthsSinceLastRank : Option Int
  rawJson : String
deriving DecidableEq, Repr

/-- Row shaping of `upsert_requirements._walk`. -/
def reqShape (rank_id : Int) (req_id : Int) (parent : Option Int) (t : RTree) :
    Int × ReqRow :=
  (req_id,
   { rankId := rank_id
     parentRequirementId := parent
     requirementNumber := t.fieldsOf.requirementNumber
     listNumber := t.fieldsOf.listNumber
     short := t.fieldsOf.short
     name := t.fieldsOf.name
     required := pyRequiredFlag t.fieldsOf.required
     childrenRequired := intOrNone t.fieldsOf.childrenRequired
     sortOrder := t.fieldsOf.sortOrder
     eagleMbRequired := intOrNone t.fieldsOf.eagleMBRequired
     totalMbRequired := intOrNone t.fieldsOf.totalMBRequired
     serviceHoursRequired := intOrNone t.fieldsOf.serviceHoursRequired
     monthsSinceLastRank := intOrNone t.fieldsOf.monthsSinceLastRankRequired
     rawJson := t.fieldsOf.raw })

/-- `upsert_requirements(conn, rank_id, requirements)` — returns the count and
the updated `requirements` table. -/
def upsert_requirements (rank_id : Int) (requirements : ReqPayload)
    (tbl : Table Int ReqRow) : Nat × Table Int ReqRow :=
  ((defnWalk (reqShape rank_id) (unwrapPayload requirements) none (tbl, 0)).2,
   (defnWalk (reqShape rank_id) (unwrapPayload requirements) none (tbl, 0)).1)

/-- A row of the `mb_requirements` table, keyed by its `id` column. -/
structure MbReqRow where
  mbApiId : Int
  mbVersionId : String
  parentRequirementId : Option Int
  requirementNumber : Option String
  name : Option String
  required : Int
  childrenRequired : Option Int
  sortOrder : Option String
  rawJson : String
deriving DecidableEq, Repr

/-- Row shaping of `upsert_mb_requirements._walk` (`str(mb_version_id)` is the
string argument). -/
def mbReqShape (mb_api_id : Int) (mb_version_id : String) (req_id : Int)
    (parent : Option Int) (t : RTree) : Int × MbReqRow :=
  (req_id,
   { mbApiId := mb_api_id
     mbVersionId := mb_version_id
     parentRequirementId := parent
     requirementNumber := t.fieldsOf.requirementNumber
     name := t.fieldsOf.name
     required := pyRequiredFlag t.fieldsOf.required
     childrenRequired := intOrNone t.fieldsOf.childrenRequired
     sortOrder := t.fieldsOf.sortOrder
     rawJson := t.fieldsOf.raw })

/-- `upsert_mb_requirements(conn, mb_api_id, mb_version_id, requirements)`. -/
def upsert_mb_requirements (mb_api_id : Int) (mb_version_id : String)
    (requirements : ReqPayload) (tbl : Table Int MbReqRow) :
    Nat × Table Int MbReqRow :=
  ((defnWalk (mbReqShape mb_api_id mb_version_id) (unwrapPayload requirements) none
      (tbl, 0)).2,
   (defnWalk (mbReqShape mb_api_id mb_version_id) (unwrapPayload requirements) none
      (tbl, 0)).1)

/-- A row of `scout_requirement_completions`, keyed by its
`UNIQUE(scout_user_id, requirement_id)` constraint. -/
structure ScoutReqComplRow where
  rankId : Int
  completed : Int
  dateCompleted : Option String
deriving DecidableEq, Repr

/-- Row shaping of `store_youth_rank_requirements._walk`. -/
def scoutReqShape (user_id : String) (rank_id : Int) (req_id : Int) (t : RTree) :
    (String × Int) × ScoutReqComplRow :=
  ((user_id, req_id),
   { rankId := rank_id
     completed := if pyStrTruthy t.complDate then 1 else 0
     dateCompleted := t.complDate })

/-- `store_youth_rank_requirements(conn, user_id, rank_id, requirements)`. -/
def store_youth_rank_requirements (user_id : String) (rank_id : Int)
    (requirements : ReqPayload) (tbl : Table (String × Int) ScoutReqComplRow) :
    Nat × Table (String × Int) ScoutReqComplRow :=
  ((complWalk (scoutReqShape user_id rank_id) (unwrapPayload requirements) (tbl, 0)).2,
   (complWalk (scoutReqShape user_id rank_id) (unwrapPayload requirements) (tbl, 0)).1)

/-- A row of `scout_mb_requirement_completions`, keyed by its
`UNIQUE(scout_user_id, mb_requirement_id)` constraint. -/
structure ScoutMbReqComplRow where
  mbApiId : Int
  mbVersionId : String
  completed : Int
  dateCompleted : Option String
  rawJson : String
deriving DecidableEq, Repr

/-- Row shaping of `store_youth_mb_requirements._walk`. -/
def scoutMbReqShape (user_id : String) (mb_api_id : Int) (mb_version_id : String)
    (req_id : Int) (t : RTree) : (String × Int) × ScoutMbReqComplRow :=
  ((user_id, req_id),
   { mbApiId := mb_api_id
     mbVersionId := mb_version_id
     completed := if pyStrTruthy t.complDate then 1 else 0
     dateCompleted := t.complDate
     rawJson := t.fieldsOf.raw })

/-- `store_youth_mb_requirements(conn, user_id, mb_api_id, mb_version_id,
requirements)`. -/
def store_youth_mb_requirements (user_id : String) (mb_api_id : Int)
    (mb_version_id : String) (requirements : ReqPayload)
    (tbl : Table (String × Int) ScoutMbReqComplRow) :
    Nat × Table (String × Int) ScoutMbReqComplRow :=
  ((complWalk (scoutMbReqShape user_id mb_api_id mb_version_id)
      (unwrapPayload requirements) (tbl, 0)).2,
   (complWalk (scoutMbReqShape user_id mb_api_id mb_version_id)
      (unwrapPayload requirements) (tbl, 0)).1)

/-- C1: for every requirement tree accepted by a tree-flattening upsert
(`upsert_requirements`, `upsert_mb_requirements`,
`store_youth_rank_requirements`, `store_youth_mb_requirements`), after
unwrapping a dict input via its `requirements` or `value` key, the returned
count equals the number of nodes in the tree that carry a non-empty (truthy)
identifier, where a node lacking an identifier is neither stored nor counted
and none of its descendants are visited (`countKept`). -/
theorem c1_flatten_upsert_count (rank_id mb_api_id : Int) (mb_version_id : String)
    (user_id : String) (input : ReqPayload)
    (t1 : Table Int ReqRow) (t2 : Table Int MbReqRow)
    (t3 : Table (String × Int) ScoutReqComplRow)
    (t4 : Table (String × Int) ScoutMbReqComplRow) :
    (upsert_requirements rank_id input t1).1 = countKept (unwrapPayload input) ∧
    (upsert_mb_requirements mb_api_id mb_version_id input t2).1 =
      countKept (unwrapPayload input) ∧
    (store_youth_rank_requirements user_id rank_id input t3).1 =
      countKept (unwrapPayload input) ∧
    (store_youth_mb_requirements user_id mb_api_id mb_version_id input t4).1 =
      countKept (unwrapPayload input) := by
  refine ⟨?_, ?_, ?_, ?_⟩ <;>
    simp [upsert_requirements, upsert_mb_requirements,
      store_youth_rank_requirements, store_youth_mb_requirements,
      defnWalk_eq_writes, complWalk_eq_writes, defnWrites_length, complWrites_length]

/-! ### Tree addressing (for the parent-link claim)

A node of the walked forest is addressed by the list of child indexes leading
to it, each step descending into the node's effective
(`requirements`-or-`children`) child list. -/

/-- Navigate a forest along a non-empty path of child indexes. -/
def getNode : List RTree → List Nat → Option RTree
  | ts, [i] => ts.get? i
  | ts, i :: j :: rest =>
    match ts.get? i with
    | some t => getNode t.effKids (j :: rest)
    | none => none
  | _, [] => none

/-- Every node along the path (the target included) carries a truthy id. -/
def pathKept : List RTree → List Nat → Bool
  | _, [] => true
  | ts, i :: rest =>
    match ts.get? i with
    | some t => t.keptId && pathKept t.effKids rest
    | none => false

/-- The id of the immediate ancestor of the node at the given address
(`none` for a top-level address). -/
def parentAt : List RTree → List Nat → Option Int
  | _, [] => none
  | _, [_] => none
  | ts, i :: j :: rest =>
    match ts.get? i with
    | some t =>
      match rest with
      | [] => t.identOf
      | _ :: _ => parentAt t.effKids (j :: rest)
    | none => none

/-- The parent reference the walk stores for the node at the given address,
when the walk of the forest was entered with parent argument `p`. -/
def parentRef (ts : List RTree) (p : Option Int) (addr : List Nat) : Option Int :=
  match addr with
  | [_] => intOrNone p
  | _ => parentAt ts addr

theorem getNode_cons_succ (t : RTree) (ts : List RTree) (i : Nat) (rest : List Nat) :
    getNode (t :: ts) ((i + 1) :: rest) = getNode ts (i :: rest) := by
  cases rest <;> simp [getNode]

theorem pathKept_cons_succ (t : RTree) (ts : List RTree) (i : Nat) (rest : List Nat) :
    pathKept (t :: ts) ((i + 1) :: rest) = pathKept ts (i :: rest) := by
  simp [pathKept]

theorem parentAt_cons_succ (t : RTree) (ts : List RTree) (i : Nat) (rest : List Nat) :
    parentAt (t :: ts) ((i + 1) :: rest) = parentAt ts (i :: rest) := by
  cases rest <;> simp [parentAt]

theorem parentRef_cons_succ (t : RTree) (ts : List RTree) (p : Option Int) (i : Nat)
    (rest : List Nat) :
    parentRef (t :: ts) p ((i + 1) :: rest) = parentRef ts p (i :: rest) := by
  cases rest with
  | nil => simp [parentRef]
  | cons j r2 => simp [parentRef, parentAt_cons_succ]

theorem getNode_cons_zero (t : RTree) (ts : List RTree) (i : Nat) (rest : List Nat) :
    getNode (t :: ts) (0 :: i :: rest) = getNode t.effKids (i :: rest) := by
  simp [getNode]

theorem pathKept_cons_zero (t : RTree) (ts : List RTree) (rest : List Nat) :
    pathKept (t :: ts) (0 :: rest) = (t.keptId && pathKept t.effKids rest) := by
  simp [pathKept]

theorem parentRef_cons_zero (t : RTree) (ts : List RTree) (p : Option Int) (v : Int)
    (hv : t.identOf = some v) (hv0 : v ≠ 0) (i : Nat) (rest : List Nat) :
    parentRef (t :: ts) p (0 :: i :: rest) = parentRef t.effKids (some v) (i :: rest) := by
  cases rest with
  | nil => simp [parentRef, parentAt, hv, intOrNone, hv0]
  | cons j r2 => simp [parentRef, parentAt]

/-- Every write a definition walk emits comes from a node reached along a
fully-kept path, carries that node's id as key, and stores the id of its
immediate ancestor (the walk's entry parent for top-level nodes). -/
theorem defnWrites_mem_parent {κ ρ : Type} (shape : Int → Option Int → RTree → κ × ρ) :
    ∀ (ts : List RTree) (p : Option Int), ∀ kv ∈ defnWrites shape ts p,
      ∃ (addr : List Nat) (t : RTree) (v : Int),
        getNode ts addr = some t ∧ pathKept ts addr = true ∧ addr ≠ [] ∧
        t.identOf = some v ∧ v ≠ 0 ∧ kv = shape v (parentRef ts p addr) t := by
  intro ts p
  induction ts, p using defnWrites.induct shape with
  | case1 p => intro kv h; simp [defnWrites] at h
  | case2 fl dc de rs cs ts p ih =>
    intro kv h
    rw [show defnWrites shape (RTree.node (some 0) fl dc de rs cs :: ts) p =
        defnWrites shape ts p by cases rs <;> simp [defnWrites]] at h
    obtain ⟨addr, t, v, h1, h2, h3, h4, h5, h6⟩ := ih kv h
    cases addr with
    | nil => exact absurd rfl h3
    | cons i rest =>
      exact ⟨(i + 1) :: rest, t, v, by rwa [getNode_cons_succ],
        by rwa [pathKept_cons_succ], by simp, h4, h5,
        by rwa [parentRef_cons_succ]⟩
  | case3 fl dc de rs cs ts p v hv ihkids ihts =>
    intro kv h
    have hkept : (RTree.node (some v) fl dc de rs cs).keptId = true := by
      simp [RTree.keptId, hv]
    have hid : (RTree.node (some v) fl dc de rs cs).identOf = some v := rfl
    cases rs with
    | nil =>
      simp only [defnWrites, if_neg hv, List.mem_cons, List.mem_append] at h
      rcases h with h | h | h
      · refine ⟨[0], RTree.node (some v) fl dc de [] cs, v, by simp [getNode],
          ?_, by simp, hid, hv, ?_⟩
        · simp [pathKept, hkept]
        · simpa [parentRef] using h
      · obtain ⟨addr, t, w, h1, h2, h3, h4, h5, h6⟩ := ihkids kv h
        cases addr with
        | nil => exact absurd rfl h3
        | cons i rest =>
          refine ⟨0 :: i :: rest, t, w, ?_, ?_, by simp, h4, h5, ?_⟩
          · rw [getNode_cons_zero]
            simpa [RTree.effKids] using h1
          · rw [pathKept_cons_zero]
            simp only [hkept, Bool.true_and]
            simpa [RTree.effKids] using h2
          · rw [parentRef_cons_zero _ _ _ _ hid hv]
            simpa [RTree.effKids] using h6
      · obtain ⟨addr, t, w, h1, h2, h3, h4, h5, h6⟩ := ihts kv h
        cases addr with
        | nil => exact absurd rfl h3
        | cons i rest =>
          exact ⟨(i + 1) :: rest, t, w, by rwa [getNode_cons_succ],
            by rwa [pathKept_cons_succ], by simp, h4, h5,
            by rwa [parentRef_cons_succ]⟩
    | cons r rl =>
      simp only [defnWrites, if_neg hv, List.mem_cons, List.mem_append] at h
      rcases h with h | h | h
      · refine ⟨[0], RTree.node (some v) fl dc de (r :: rl) cs, v, by simp [getNode],
          ?_, by simp, hid, hv, ?_⟩
        · simp [pathKept, hkept]
        · simpa [parentRef] using h
      · obtain ⟨addr, t, w, h1, h2, h3, h4, h5, h6⟩ := ihkids kv h
        cases addr with
        | nil => exact absurd rfl h3
        | cons i rest =>
          refine ⟨0 :: i :: rest, t, w, ?_, ?_, by simp, h4, h5, ?_⟩
          · rw [getNode_cons_zero]
            simpa [RTree.effKids] using h1
          · rw [pathKept_cons_zero]
            simp only [hkept, Bool.true_and]
            simpa [RTree.effKids] using h2
          · rw [parentRef_cons_zero _ _ _ _ hid hv]
            simpa [RTree.effKids] using h6
      · obtain ⟨addr, t, w, h1, h2, h3, h4, h5, h6⟩ := ihts kv h
        cases addr with
        | nil => exact absurd rfl h3
        | cons i rest =>
          exact ⟨(i + 1) :: rest, t, w, by rwa [getNode_cons_succ],
            by rwa [pathKept_cons_succ], by simp, h4, h5,
            by rwa [parentRef_cons_succ]⟩
  | case4 fl dc de rs cs ts p ih =>
    intro kv h
    rw [show defnWrites shape (RTree.node none fl dc de rs cs :: ts) p =
        defnWrites shape ts p by cases rs <;> simp [defnWrites]] at h
    obtain ⟨addr, t, v, h1, h2, h3, h4, h5, h6⟩ := ih kv h
    cases addr with
    | nil => exact absurd rfl h3
    | cons i rest =>
      exact ⟨(i + 1) :: rest, t, v, by rwa [getNode_cons_succ],
        by rwa [pathKept_cons_succ], by simp, h4, h5,
        by rwa [parentRef_cons_succ]⟩

/-- The write list `upsert_requirements` applies to the `requirements` table. -/
def upsert_requirements_writes (rank_id : Int) (requirements : ReqPayload) :
    List (Int × ReqRow) :=
  defnWrites (reqShape rank_id) (unwrapPayload requirements) none

/-- The write list `upsert_mb_requirements` applies to `mb_requirements`. -/
def upsert_mb_requirements_writes (mb_api_id : Int) (mb_version_id : String)
    (requirements : ReqPayload) : List (Int × MbReqRow) :=
  defnWrites (mbReqShape mb_api_id mb_version_id) (unwrapPayload requirements) none

theorem upsert_requirements_as_writes (rank_id : Int) (requirements : ReqPayload)
    (tbl : Table Int ReqRow) :
    upsert_requirements rank_id requirements tbl =
      ((upsert_requirements_writes rank_id requirements).length,
       applyWrites (upsert_requirements_writes rank_id requirements) tbl) := by
  simp [upsert_requirements, upsert_requirements_writes, defnWalk_eq_writes]

theorem upsert_mb_requirements_as_writes (mb_api_id : Int) (mb_version_id : String)
    (requirements : ReqPayload) (tbl : Table Int MbReqRow) :
    upsert_mb_requirements mb_api_id mb_version_id requirements tbl =
      ((upsert_mb_requirements_writes mb_api_id mb_version_id requirements).length,
       applyWrites (upsert_mb_requirements_writes mb_api_id mb_version_id requirements)
         tbl) := by
  simp [upsert_mb_requirements, upsert_mb_requirements_writes, defnWalk_eq_writes]

/-- C5: every row stored by `upsert_requirements` or `upsert_mb_requirements`
comes from a node reached along a chain of stored (kept) nodes; its stored
parent-reference equals the immediate ancestor's identifier, and a top-level
node is stored with a null parent-reference (`parentRef _ none` is `none`
exactly on the one-step addresses). -/
theorem c5_parent_reference (rank_id mb_api_id : Int) (mb_version_id : String)
    (input : ReqPayload) :
    (∀ kv ∈ upsert_requirements_writes rank_id input,
      ∃ (addr : List Nat) (t : RTree) (v : Int),
        getNode (unwrapPayload input) addr = some t ∧
        pathKept (unwrapPayload input) addr = true ∧ addr ≠ [] ∧
        t.identOf = some v ∧ v ≠ 0 ∧ kv.1 = v ∧
        kv.2.parentRequirementId =
          (match addr with
           | [_] => none
           | _ => parentAt (unwrapPayload input) addr)) ∧
    (∀ kv ∈ upsert_mb_requirements_writes mb_api_id mb_version_id input,
      ∃ (addr : List Nat) (t : RTree) (v : Int),
        getNode (unwrapPayload input) addr = some t ∧
        pathKept (unwrapPayload input) addr = true ∧ addr ≠ [] ∧
        t.identOf = some v ∧ v ≠ 0 ∧ kv.1 = v ∧
        kv.2.parentRequirementId =
          (match addr with
           | [_] => none
           | _ => parentAt (unwrapPayload input) addr)) := by
  constructor
  · intro kv h
    obtain ⟨addr, t, v, h1, h2, h3, h4, h5, h6⟩ :=
      defnWrites_mem_parent (reqShape rank_id) (unwrapPayload input) none kv h
    refine ⟨addr, t, v, h1, h2, h3, h4, h5, ?_, ?_⟩
    · rw [h6]; rfl
    · rw [h6]
      show parentRef (unwrapPayload input) none addr = _
      cases addr with
      | nil => exact absurd rfl h3
      | cons i rest =>
        cases rest with
        | nil => simp [parentRef, intOrNone]
        | cons j r2 => simp [parentRef]
  · intro kv h
    obtain ⟨addr, t, v, h1, h2, h3, h4, h5, h6⟩ :=
      defnWrites_mem_parent (mbReqShape mb_api_id mb_version_id)
        (unwrapPayload input) none kv h
    refine ⟨addr, t, v, h1, h2, h3, h4, h5, ?_, ?_⟩
    · rw [h6]; rfl
    · rw [h6]
      show parentRef (unwrapPayload input) none addr = _
      cases addr with
      | nil => exact absurd rfl h3
      | cons i rest =>
        cases rest with
        | nil => simp [parentRef, intOrNone]
        | cons j r2 => simp [parentRef]

/-- C4: running any of the four tree-flattening upserts a second time with an
unchanged tree and unchanged scoping keys returns the same count and leaves
the stored table identical (every field value and the row count) to after the
first run. -/
theorem c4_flatten_upsert_idempotent (rank_id mb_api_id : Int)
    (mb_version_id : String) (user_id : String) (input : ReqPayload)
    (t1 : Table Int ReqRow) (t2 : Table Int MbReqRow)
    (t3 : Table (String × Int) ScoutReqComplRow)
    (t4 : Table (String × Int) ScoutMbReqComplRow) :
    upsert_requirements rank_id input (upsert_requirements rank_id input t1).2 =
      upsert_requirements rank_id input t1 ∧
    upsert_mb_requirements mb_api_id mb_version_id input
        (upsert_mb_requirements mb_api_id mb_version_id input t2).2 =
      upsert_mb_requirements mb_api_id mb_version_id input t2 ∧
    store_youth_rank_requirements user_id rank_id input
        (store_youth_rank_requirements user_id rank_id input t3).2 =
      store_youth_rank_requirements user_id rank_id input t3 ∧
    store_youth_mb_requirements user_id mb_api_id mb_version_id input
        (store_youth_mb_requirements user_id mb_api_id mb_version_id input t4).2 =
      store_youth_mb_requirements user_id mb_api_id mb_version_id input t4 := by
  refine ⟨?_, ?_, ?_, ?_⟩ <;>
    simp [upsert_requirements, upsert_mb_requirements,
      store_youth_rank_requirements, store_youth_mb_requirements,
      defnWalk_eq_writes, complWalk_eq_writes, applyWrites_idem]

/-! ### `store_youth_ranks` (db.py) and the scouts table -/

/-- A row of the `ranks` table (keyed by its `id`). -/
structure RankRow where
  name : String
  level : Int
  programId : Int
  program : Option String
  imageUrl : Option String
  version : Option String
  active : Int
  rawJson : Option String
deriving DecidableEq, Repr

/-- A row of `scout_advancements`, keyed by
`UNIQUE(scout_user_id, advancement_type, advancement_id)`. -/
structure AdvRow where
  advancementName : Option String
  status : String
  dateCompleted : Option String
  dateStarted : Option String
  rawJson : Option String
deriving DecidableEq, Repr

/-- A row of the `scouts` table (keyed by `user_id`). -/
structure ScoutRow where
  firstName : Option String
  lastName : Option String
  scoutingMemberId : Option String
  patrol : Option String
  currentRankId : Option Int
  birthdate : Option String
  lastSyncedAt : Option String
deriving DecidableEq, Repr

/-- The slice of the database `store_youth_ranks` touches. -/
structure Db where
  ranks : Table Int RankRow
  advancements : Table (String × String × Int) AdvRow
  scouts : Table String ScoutRow
deriving DecidableEq

/-- One entry of the `program` array of the v2 youth-ranks response. -/
structure YouthRank where
  ident : Option Int
  name : Option String
  level : Option Int
  dateEarned : Option String
  raw : String
deriving DecidableEq, Repr

structure ProgramEntry where
  programId : Option Int
  program : Option String
  ranks : List YouthRank
deriving DecidableEq, Repr

structure RanksResponse where
  program : List ProgramEntry
deriving DecidableEq, Repr

/-- The inner rank loop of `store_youth_ranks`: threads the database, the
running `max_bsa_rank_id` and the running total through one program's ranks.
The placeholder `INSERT OR IGNORE` into `ranks` sets `level` to the rank id. -/
def sYRranks (user_id : String) (prog_id : Int) (prog_name : String) :
    List YouthRank → Db × Int × Nat → Db × Int × Nat
  | [], st => st
  | r :: rest, (db, maxBsa, total) =>
    match r.ident with
    | none => sYRranks user_id prog_id prog_name rest (db, maxBsa, total)
    | some rid =>
      if rid = 0 then sYRranks user_id prog_id prog_name rest (db, maxBsa, total)
      else
        sYRranks user_id prog_id prog_name rest
          ({ db with
             ranks := Table.insertIgnore rid
               { name := r.name.getD ""
                 level := rid
                 programId := prog_id
                 program := some prog_name
                 imageUrl := none
                 version := none
                 active := 1
                 rawJson := none } db.ranks
             advancements := Table.insertReplace (user_id, "rank", rid)
               { advancementName := some (r.name.getD "")
                 status := if pyStrTruthy r.dateEarned then "completed"
                           else "in_progress"
                 dateCompleted := r.dateEarned
                 dateStarted := none
                 rawJson := some r.raw } db.advancements },
           if pyStrTruthy r.dateEarned ∧ prog_id = 2 ∧ rid > maxBsa then rid
           else maxBsa,
           total + 1)

/-- The outer program loop of `store_youth_ranks`. -/
def sYRprograms (user_id : String) :
    List ProgramEntry → Db × Int × Nat → Db × Int × Nat
  | [], st => st
  | prog :: rest, st =>
    sYRprograms user_id rest
      (sYRranks user_id (prog.programId.getD 0) (prog.program.getD "") prog.ranks st)

/-- `store_youth_ranks(conn, user_id, ranks_response)`: processes every rank
of every program, then (only when a qualifying completed Scouts-BSA rank was
seen, i.e. `max_bsa_rank_id` is truthy) updates the scout's
`current_rank_id`.  Returns the new database and the total. -/
def store_youth_ranks (user_id : String) (resp : RanksResponse) (db : Db) :
    Db × Nat :=
  match sYRprograms user_id resp.program (db, 0, 0) with
  | (db2, maxBsa, total) =>
    (if maxBsa ≠ 0 then
       { db2 with scouts := db2.scouts.map (fun e =>
           if e.1 = user_id then (e.1, { e.2 with currentRankId := some maxBsa })
           else e) }
     else db2,
     total)

/-! Spec-side views of the ranks response, written from the spec's words. -/

/-- The qualifying ranks of one program's rank list: a non-empty (truthy)
completion date and a usable (truthy) id. -/
def qualRanks (rs : List YouthRank) : List YouthRank :=
  rs.filter (fun r => pyStrTruthy r.dateEarned && (r.ident.getD 0 ≠ 0))

/-- Their ids. -/
def ranksQualIds (rs : List YouthRank) : List Int :=
  (qualRanks rs).filterMap (fun r => r.ident)

/-- The qualifying ranks of the whole response: completed ranks of the
"current rank" program (program id 2) only — other programs contribute
nothing. -/
def qualifyingBsaRanks (resp : RanksResponse) : List YouthRank :=
  resp.program.flatMap (fun p =>
    if p.programId.getD 0 = 2 then qualRanks p.ranks else [])

/-- The ids of the qualifying ranks of the whole response. -/
def qualifyingBsaIds (resp : RanksResponse) : List Int :=
  resp.program.flatMap (fun p =>
    if p.programId.getD 0 = 2 then ranksQualIds p.ranks else [])

/-- Modelled from the spec: the id of the highest-`level` rank among the
qualifying ranks, the spec's candidate for the current-rank reference. -/
def highestLevelBsaRankId (resp : RanksResponse) : Option Int :=
  ((qualifyingBsaRanks resp).foldl (fun acc r =>
      match acc with
      | none => some r
      | some b => if r.level.getD 0 > b.level.getD 0 then some r else some b)
    none).bind (fun r => r.ident)

/-- The running `max_bsa_rank_id` computation of the rank loop, as a pure
function of the rank list and the incoming value. -/
def sYRmax (pid : Int) : List YouthRank → Int → Int
  | [], m => m
  | r :: rest, m =>
    match r.ident with
    | none => sYRmax pid rest m
    | some rid =>
      if rid = 0 then sYRmax pid rest m
      else sYRmax pid rest
        (if pyStrTruthy r.dateEarned ∧ pid = 2 ∧ rid > m then rid else m)

/-- Its aggregation over the program loop. -/
def sYRmaxPrograms : List ProgramEntry → Int → Int
  | [], m => m
  | p :: rest, m => sYRmaxPrograms rest (sYRmax (p.programId.getD 0) p.ranks m)

/-- The rank loop never touches the `scouts` table. -/
theorem sYRranks_scouts (u : String) (pid : Int) (pname : String) :
    ∀ (rs : List YouthRank) (st : Db × Int × Nat),
      (sYRranks u pid pname rs st).1.scouts = st.1.scouts := by
  intro rs
  induction rs with
  | nil => intro st; rfl
  | cons r rest ih =>
    intro st
    obtain ⟨db, m, t⟩ := st
    cases hr : r.ident with
    | none => simp [sYRranks, hr, ih]
    | some rid =>
      by_cases h0 : rid = 0
      · simp [sYRranks, hr, h0, ih]
      · simp [sYRranks, hr, h0, ih]

/-- The program loop never touches the `scouts` table. -/
theorem sYRprograms_scouts (u : String) :
    ∀ (ps : List ProgramEntry) (st : Db × Int × Nat),
      (sYRprograms u ps st).1.scouts = st.1.scouts := by
  intro ps
  induction ps with
  | nil => intro st; rfl
  | cons p rest ih =>
    intro st
    obtain ⟨db, m, t⟩ := st
    simp only [sYRprograms]
    rw [ih]
    exact sYRranks_scouts u _ _ p.ranks (db, m, t)

/-- The second component of the rank loop's state is `sYRmax`. -/
theorem sYRranks_max_eq (u : String) (pid : Int) (pname : String) :
    ∀ (rs : List YouthRank) (st : Db × Int × Nat),
      (sYRranks u pid pname rs st).2.1 = sYRmax pid rs st.2.1 := by
  intro rs
  induction rs with
  | nil => intro st; rfl
  | cons r rest ih =>
    intro st
    obtain ⟨db, m, t⟩ := st
    cases hr : r.ident with
    | none => simp only [sYRranks, sYRmax, hr]; exact ih _
    | some rid =>
      by_cases h0 : rid = 0
      · simp only [sYRranks, sYRmax, hr, if_pos h0]
        exact ih _
      · simp only [sYRranks, sYRmax, hr, if_neg h0]
        exact ih _

/-- The second component of the program loop's state is `sYRmaxPrograms`. -/
theorem sYRprograms_max_eq (u : String) :
    ∀ (ps : List ProgramEntry) (st : Db × Int × Nat),
      (sYRprograms u ps st).2.1 = sYRmaxPrograms ps st.2.1 := by
  intro ps
  induction ps with
  | nil => intro st; rfl
  | cons p rest ih =>
    intro st
    obtain ⟨db, m, t⟩ := st
    simp only [sYRprograms, sYRmaxPrograms]
    rw [ih, sYRranks_max_eq]

/-- What `sYRmax` computes: the result is the old value or the id of some
qualifying rank (when this program is the Scouts-BSA one), never decreases,
and dominates every qualifying id of this program. -/
theorem sYRmax_spec (pid : Int) :
    ∀ (rs : List YouthRank) (m : Int),
      (sYRmax pid rs m = m ∨ (pid = 2 ∧ sYRmax pid rs m ∈ ranksQualIds rs)) ∧
      m ≤ sYRmax pid rs m ∧
      (pid = 2 → ∀ i ∈ ranksQualIds rs, i ≤ sYRmax pid rs m) := by
  intro rs
  induction rs with
  | nil =>
    intro m
    refine ⟨Or.inl rfl, le_refl m, ?_⟩
    intro _ i hi
    simp [ranksQualIds, qualRanks] at hi
  | cons r rest ih =>
    intro m
    cases hr : r.ident with
    | none =>
      have hq : ranksQualIds (r :: rest) = ranksQualIds rest := by
        simp [ranksQualIds, qualRanks, hr]
      rw [show sYRmax pid (r :: rest) m = sYRmax pid rest m by simp [sYRmax, hr]]
      rw [hq]
      exact ih m
    | some rid =>
      by_cases h0 : rid = 0
      · have hq : ranksQualIds (r :: rest) = ranksQualIds rest := by
          simp [ranksQualIds, qualRanks, hr, h0]
        rw [show sYRmax pid (r :: rest) m = sYRmax pid rest m by
          simp [sYRmax, hr, h0]]
        rw [hq]
        exact ih m
      · by_cases hde : pyStrTruthy r.dateEarned = true
        · have hq : ranksQualIds (r :: rest) = rid :: ranksQualIds rest := by
            simp [ranksQualIds, qualRanks, hr, h0, hde]
          by_cases hcond : pyStrTruthy r.dateEarned = true ∧ pid = 2 ∧ rid > m
          · rw [show sYRmax pid (r :: rest) m = sYRmax pid rest rid by
              simp [sYRmax, hr, h0, hcond]]
            obtain ⟨h1, h2, h3⟩ := ih rid
            rw [hq]
            obtain ⟨_, hp2, hgt⟩ := hcond
            refine ⟨?_, le_of_lt (lt_of_lt_of_le hgt h2), ?_⟩
            · rcases h1 with h1 | h1
              · exact Or.inr ⟨hp2, by simp [h1]⟩
              · exact Or.inr ⟨hp2, by simp [h1.2]⟩
            · intro hp i hi
              rcases List.mem_cons.mp hi with hi | hi
              · exact hi ▸ h2
              · exact h3 hp i hi
          · rw [show sYRmax pid (r :: rest) m = sYRmax pid rest m by
              simp [sYRmax, hr, h0, hcond]]
            obtain ⟨h1, h2, h3⟩ := ih m
            rw [hq]
            refine ⟨?_, h2, ?_⟩
            · rcases h1 with h1 | h1
              · exact Or.inl h1
              · exact Or.inr ⟨h1.1, by simp [h1.2]⟩
            · intro hp i hi
              rcases List.mem_cons.mp hi with hi | hi
              · subst hi
                have hle : i ≤ m := by
                  by_contra hlt
                  exact hcond ⟨hde, hp, by omega⟩
                exact le_trans hle h2
              · exact h3 hp i hi
        · have hde2 : pyStrTruthy r.dateEarned = false := by
            revert hde
            cases pyStrTruthy r.dateEarned <;> simp
          have hq : ranksQualIds (r :: rest) = ranksQualIds rest := by
            simp [ranksQualIds, qualRanks, hde2]
          have hcond : ¬(pyStrTruthy r.dateEarned = true ∧ pid = 2 ∧ rid > m) := by
            intro h; exact hde h.1
          rw [show sYRmax pid (r :: rest) m = sYRmax pid rest m by
            simp [sYRmax, hr, h0, hcond]]
          rw [hq]
          exact ih m

/-- What `sYRmaxPrograms` computes, aggregated over all programs. -/
theorem sYRmaxPrograms_spec :
    ∀ (ps : List ProgramEntry) (m : Int),
      (sYRmaxPrograms ps m = m ∨
        sYRmaxPrograms ps m ∈ ps.flatMap (fun p =>
          if p.programId.getD 0 = 2 then ranksQualIds p.ranks else [])) ∧
      m ≤ sYRmaxPrograms ps m ∧
      (∀ i ∈ ps.flatMap (fun p =>
          if p.programId.getD 0 = 2 then ranksQualIds p.ranks else []),
        i ≤ sYRmaxPrograms ps m) := by
  intro ps
  induction ps with
  | nil =>
    intro m
    exact ⟨Or.inl rfl, le_refl m, by simp⟩
  | cons p rest ih =>
    intro m
    have hrk := sYRmax_spec (p.programId.getD 0) p.ranks m
    obtain ⟨hr1, hr2, hr3⟩ := hrk
    simp only [sYRmaxPrograms]
    obtain ⟨hp1, hp2, hp3⟩ := ih (sYRmax (p.programId.getD 0) p.ranks m)
    refine ⟨?_, le_trans hr2 hp2, ?_⟩
    · rcases hp1 with hp1 | hp1
      · rcases hr1 with hr1 | hr1
        · exact Or.inl (hp1.trans hr1)
        · refine Or.inr ?_
          simp only [List.flatMap_cons, List.mem_append]
          refine Or.inl ?_
          rw [if_pos hr1.1, hp1]
          exact hr1.2
      · refine Or.inr ?_
        simp only [List.flatMap_cons, List.mem_append]
        exact Or.inr hp1
    · intro i hi
      simp only [List.flatMap_cons, List.mem_append] at hi
      rcases hi with hi | hi
      · by_cases hpid : p.programId.getD 0 = 2
        · rw [if_pos hpid] at hi
          exact le_trans (hr3 hpid i hi) hp2
        · rw [if_neg hpid] at hi
          simp at hi
      · exact hp3 i hi

/-- C7: for every scout and every ranks response in which no rank of the
"current rank" program (program id 2) has a non-null completion date,
`store_youth_ranks` leaves the whole `scouts` table — the current-rank
reference and every other scout field — exactly as it was. -/
theorem c7_current_rank_preserved (u : String) (resp : RanksResponse) (db : Db)
    (hno : ∀ p ∈ resp.program, p.programId.getD 0 = 2 →
      ∀ r ∈ p.ranks, r.dateEarned = none) :
    (store_youth_ranks u resp db).1.scouts = db.scouts := by
  have hq : resp.program.flatMap (fun p =>
      if p.programId.getD 0 = 2 then ranksQualIds p.ranks else []) = [] := by
    apply List.flatMap_eq_nil_iff.mpr
    intro p hp
    by_cases hpid : p.programId.getD 0 = 2
    · rw [if_pos hpid]
      have hqr : qualRanks p.ranks = [] := by
        apply List.filter_eq_nil_iff.mpr
        intro r hr
        rw [hno p hp hpid r hr]
        simp [pyStrTruthy]
      simp [ranksQualIds, hqr]
    · exact if_neg hpid
  have hmax := sYRmaxPrograms_spec resp.program 0
  rw [hq] at hmax
  have hm0 : sYRmaxPrograms resp.program 0 = 0 := by
    rcases hmax.1 with h | h
    · exact h
    · simp at h
  rcases hst : sYRprograms u resp.program (db, 0, 0) with ⟨db2, maxBsa, total⟩
  have hmeq := sYRprograms_max_eq u resp.program (db, 0, 0)
  rw [hst] at hmeq
  have hmb : maxBsa = 0 := by
    simpa [hm0] using hmeq
  have hfr := sYRprograms_scouts u resp.program (db, 0, 0)
  rw [hst] at hfr
  simp only [store_youth_ranks, hst, hmb]
  simpa using hfr

/-- C3 (amended): when at least one completed rank of the "current rank"
program (program id 2) has a positive id, `store_youth_ranks` sets the
scout's current-rank reference to the numerically greatest qualifying rank
id — the maximum over ids, not over `level` — and leaves every other row and
field of the `scouts` table unchanged. -/
theorem c3_current_rank_is_max_id (u : String) (resp : RanksResponse) (db : Db)
    (hpos : ∃ i ∈ qualifyingBsaIds resp, 0 < i) :
    ∃ M : Int, M ∈ qualifyingBsaIds resp ∧ (∀ i ∈ qualifyingBsaIds resp, i ≤ M) ∧
      (store_youth_ranks u resp db).1.scouts = db.scouts.map (fun e =>
        if e.1 = u then (e.1, { e.2 with currentRankId := some M }) else e) := by
  have hqeq : qualifyingBsaIds resp = resp.program.flatMap (fun p =>
      if p.programId.getD 0 = 2 then ranksQualIds p.ranks else []) := rfl
  obtain ⟨i0, hi0mem, hi0pos⟩ := hpos
  have hmax := sYRmaxPrograms_spec resp.program 0
  rw [← hqeq] at hmax
  obtain ⟨hm1, hm2, hm3⟩ := hmax
  have hMpos : 0 < sYRmaxPrograms resp.program 0 :=
    lt_of_lt_of_le hi0pos (hm3 i0 hi0mem)
  have hMmem : sYRmaxPrograms resp.program 0 ∈ qualifyingBsaIds resp := by
    rcases hm1 with h | h
    · omega
    · exact h
  refine ⟨sYRmaxPrograms resp.program 0, hMmem, hm3, ?_⟩
  rcases hst : sYRprograms u resp.program (db, 0, 0) with ⟨db2, maxBsa, total⟩
  have hmeq := sYRprograms_max_eq u resp.program (db, 0, 0)
  rw [hst] at hmeq
  have hmb : maxBsa = sYRmaxPrograms resp.program 0 := by simpa using hmeq
  have hfr := sYRprograms_scouts u resp.program (db, 0, 0)
  rw [hst] at hfr
  have hne : maxBsa ≠ 0 := by omega
  simp only [store_youth_ranks, hst, if_pos hne]
  simp only [hmb] at *
  rw [show db2.scouts = db.scouts from hfr]

/-- A concrete ranks response where the highest-`level` completed rank of
program 2 (id 3, level 2) is not the rank with the numerically greatest id
(id 5, level 1). -/
def c3resp : RanksResponse :=
  { program := [
      { programId := some 2
        program := some "Scouts BSA"
        ranks := [
          { ident := some 5, name := some "Scout", level := some 1,
            dateEarned := some "2020-01-01", raw := "r5" },
          { ident := some 3, name := some "First Class", level := some 2,
            dateEarned := some "2021-06-01", raw := "r3" }] }] }

/-- A database with the one scout the response is stored for. -/
def c3db : Db :=
  { ranks := []
    advancements := []
    scouts := [("U1",
      { firstName := some "A", lastName := some "B", scoutingMemberId := none,
        patrol := none, currentRankId := none, birthdate := none,
        lastSyncedAt := none })] }

/-- C3 counterexample: on `c3resp` the code stores current-rank id 5 (the
greatest id), while the highest-`level` completed rank of program 2 has
id 3 — so the claim "current-rank equals the highest-level rank id" fails. -/
theorem c3_counterexample :
    Table.lookup (store_youth_ranks "U1" c3resp c3db).1.scouts "U1" =
      some { firstName := some "A", lastName := some "B", scoutingMemberId := none,
             patrol := none, currentRankId := some 5, birthdate := none,
             lastSyncedAt := none } ∧
    highestLevelBsaRankId c3resp = some 3 ∧ ((5 : Int) = 3 → False) := by
  refine ⟨?_, ?_, by decide⟩
  · simp [store_youth_ranks, sYRprograms, sYRranks, c3resp, c3db, pyStrTruthy,
      Table.insertIgnore, Table.insertReplace, Table.lookup, sYRmax]
  · simp [highestLevelBsaRankId, qualifyingBsaRanks, qualRanks, c3resp, pyStrTruthy]

/-! ### `authenticate` (api.py) -/

structure ScoutingAPIError where
  status_code : Int
  message : String
deriving DecidableEq, Repr

/-- The `account` object of the authentication response body. -/
structure AuthAccount where
  userId : Option Int
deriving DecidableEq, Repr

/-- The JSON body of a 2xx authentication response: `token` may be absent
or empty; `account` may be absent (or null / empty, which `or {}` collapses
to an object without a `userId`). -/
structure AuthBody where
  token : Option String
  account : Option AuthAccount
deriving DecidableEq, Repr

/-- The 2xx path of `authenticate`: `user_id` is
`(data.get("account") or {}).get("userId")`; `if not token:` raises
`ScoutingAPIError(0, ...)`, so an empty token string is also an error. -/
def authenticate (body : AuthBody) : Except ScoutingAPIError (String × Option Int) :=
  match body.token with
  | some t =>
    if t = "" then .error { status_code := 0, message := "No token in response" }
    else .ok (t, (body.account.getD { userId := none }).userId)
  | none => .error { status_code := 0, message := "No token in response" }

/-- C8 counterexample: a 2xx body whose `token` field is present but empty
also raises `ScoutingAPIError` with status 0, so "raises iff the body lacks
a token field" fails left-to-right at this input. -/
theorem c8_counterexample :
    authenticate { token := some "", account := some { userId := some 99 } } =
      .error { status_code := 0, message := "No token in response" } ∧
    ({ token := some "", account := some { userId := some 99 } } : AuthBody).token ≠
      none := by
  exact ⟨rfl, by decide⟩

/-- C8 (amended): on a 2xx response, `authenticate` raises
`ScoutingAPIError` with status 0 iff the body's token is absent or empty;
otherwise it returns the token together with the optional account user id
(None when the account object or its userId is absent) — a present non-empty
token with no account id is returned, not an error. -/
theorem c8_token_error_iff (body : AuthBody) :
    ((∃ e : ScoutingAPIError, authenticate body = .error e ∧ e.status_code = 0) ↔
      (body.token = none ∨ body.token = some "")) ∧
    (∀ t uid, authenticate body = .ok (t, uid) →
      body.token = some t ∧ t ≠ "" ∧
      uid = (body.account.getD { userId := none }).userId) := by
  constructor
  · constructor
    · intro ⟨e, he, _⟩
      cases htok : body.token with
      | none => exact Or.inl rfl
      | some t =>
        by_cases ht : t = ""
        · subst ht; exact Or.inr rfl
        · simp [authenticate, htok, ht] at he
    · intro h
      have he : authenticate body =
          .error { status_code := 0, message := "No token in response" } := by
        rcases h with h | h <;> simp [authenticate, h]
      exact ⟨_, he, rfl⟩
  · intro t uid hok
    cases htok : body.token with
    | none => simp [authenticate, htok] at hok
    | some t2 =>
      simp only [authenticate, htok] at hok
      by_cases ht : t2 = ""
      · simp [ht] at hok
      · simp only [if_neg ht, Except.ok.injEq, Prod.mk.injEq] at hok
        obtain ⟨h1, h2⟩ := hok
        subst h1
        exact ⟨rfl, ht, h2.symm⟩

/-! ### `store_leadership` (db.py) -/

/-- One leadership position object from the API. -/
structure LeadPos where
  positionTitle : Option String := none
  position : Option String := none
  title : Option String := none
  dateStarted : Option String := none
  startDate : Option String := none
  dateEnded : Option String := none
  endDate : Option String := none
  unit : Option String := none
  patrol : Option String := none
  numberOfDaysInPosition : Option Int := none
  daysInPosition : Option Int := none
  approvalStatus : Option String := none
  approved : Option Bool := none
  raw : String := ""
deriving DecidableEq, Repr

/-- A row of `scout_leadership`.  The table has an autoincrement primary key
and no natural uniqueness constraint, so it is a plain list of rows and
`INSERT OR REPLACE` cannot conflict: every insert appends. -/
structure LeadRow where
  scout_user_id : String
  position : String
  start_date : Option String
  end_date : Option String
  unit : Option String
  patrol : Option String
  days_in_position : Option Int
  approved : Int
  raw_json : String
deriving DecidableEq, Repr

/-- Input to `store_leadership`: a bare list, or (when not a list) a wrapper
unwrapped via `positions.get("value", positions.get("positions", []))` —
plain `dict.get` with defaults, so a present `value` key is taken even when
falsy. -/
inductive LeadInput where
  | list (ps : List LeadPos)
  | obj (value : Option (List LeadPos)) (positions : Option (List LeadPos))

def unwrapLead : LeadInput → List LeadPos
  | .list ps => ps
  | .obj v q =>
    match v with
    | some l => l
    | none => q.getD []

/-- The row `store_leadership` builds for one position. -/
def leadRowOf (user_id : String) (pos : LeadPos) : LeadRow :=
  { scout_user_id := user_id
    position :=
      pyOrStr pos.positionTitle (pyOrStr pos.position (pyOrStr pos.title "Unknown"))
    start_date := pyOrOpt pos.dateStarted pos.startDate
    end_date := pyOrOpt pos.dateEnded pos.endDate
    unit := pos.unit
    patrol := pos.patrol
    days_in_position := pyOrInt pos.numberOfDaysInPosition pos.daysInPosition
    approved :=
      if pyStrTruthy pos.approvalStatus || pos.approved.getD false then 1 else 0
    raw_json := pos.raw }

/-- `store_leadership(conn, user_id, positions)`: appends one row per
position and returns the new table and the count. -/
def store_leadership (user_id : String) (input : LeadInput) (tbl : List LeadRow) :
    List LeadRow × Nat :=
  (unwrapLead input).foldl
    (fun st pos => (st.1 ++ [leadRowOf user_id pos], st.2 + 1)) (tbl, 0)

theorem store_leadership_foldl (user_id : String) :
    ∀ (ps : List LeadPos) (tbl : List LeadRow) (c : Nat),
      ps.foldl (fun st pos => (st.1 ++ [leadRowOf user_id pos], st.2 + 1)) (tbl, c) =
        (tbl ++ ps.map (leadRowOf user_id), c + ps.length) := by
  intro ps
  induction ps with
  | nil => intro tbl c; simp
  | cons p rest ih =>
    intro tbl c
    simp only [List.foldl_cons, ih, List.map_cons, List.length_cons,
      Prod.mk.injEq]
    exact ⟨by simp, by omega⟩

theorem store_leadership_eq (user_id : String) (input : LeadInput)
    (tbl : List LeadRow) :
    store_leadership user_id input tbl =
      (tbl ++ (unwrapLead input).map (leadRowOf user_id),
       (unwrapLead input).length) := by
  simp [store_leadership, store_leadership_foldl]

/-- The number of leadership rows stored for one scout. -/
def leadCountFor (user_id : String) (tbl : List LeadRow) : Nat :=
  (tbl.filter (fun r => decide (r.scout_user_id = user_id))).length

/-- C9: `store_leadership` is not idempotent — starting from a table with no
rows for the scout, each of two identical calls with a non-empty list of `n`
positions returns `n` and the scout ends with `2 * n` leadership rows. -/
theorem c9_store_leadership_not_idempotent (user_id : String) (ps : List LeadPos)
    (tbl : List LeadRow) (hne : ps ≠ []) (hempty : leadCountFor user_id tbl = 0) :
    (store_leadership user_id (.list ps) tbl).2 = ps.length ∧
    (store_leadership user_id (.list ps)
        (store_leadership user_id (.list ps) tbl).1).2 = ps.length ∧
    leadCountFor user_id
        (store_leadership user_id (.list ps)
          (store_leadership user_id (.list ps) tbl).1).1 = 2 * ps.length := by
  have hmine : ∀ qs : List LeadPos,
      (qs.map (leadRowOf user_id)).filter
          (fun r => decide (r.scout_user_id = user_id)) =
        qs.map (leadRowOf user_id) := by
    intro qs
    apply List.filter_eq_self.mpr
    intro r hr
    obtain ⟨pos, _, hpos⟩ := List.mem_map.mp hr
    rw [← hpos]
    simp [leadRowOf]
  refine ⟨?_, ?_, ?_⟩
  · simp [store_leadership_eq, unwrapLead]
  · simp [store_leadership_eq, unwrapLead]
  · simp only [store_leadership_eq, unwrapLead]
    unfold leadCountFor at hempty ⊢
    simp only [List.filter_append, List.length_append, hmine, List.length_map]
    rw [hempty]
    omega

/-! ### `upsert_scout` (db.py) -/

/-- SQL `COALESCE(excluded.col, col)`: the new value unless it is null. -/
def coalesce {α : Type} (a b : Option α) : Option α :=
  match a with
  | some v => some v
  | none => b

/-- The `DO UPDATE SET` clause of `upsert_scout`: each data column becomes
`COALESCE(excluded.col, col)`, `last_synced_at` is overwritten
unconditionally, and `current_rank_id` is not in the update list. -/
def scoutUpdate (first_name last_name scouting_member_id patrol birthdate :
    Option String) (now : String) (r : ScoutRow) : ScoutRow :=
  { firstName := coalesce first_name r.firstName
    lastName := coalesce last_name r.lastName
    scoutingMemberId := coalesce scouting_member_id r.scoutingMemberId
    patrol := coalesce patrol r.patrol
    currentRankId := r.currentRankId
    birthdate := coalesce birthdate r.birthdate
    lastSyncedAt := some now }

/-- `upsert_scout(conn, user_id, ...)`: insert, or on conflict apply
`scoutUpdate` to the existing row.  `now` stands for
`datetime.now(timezone.utc).isoformat()`. -/
def upsert_scout (user_id : String)
    (first_name last_name scouting_member_id patrol birthdate : Option String)
    (now : String) (tbl : Table String ScoutRow) : Table String ScoutRow :=
  match tbl.lookup user_id with
  | some _ =>
    tbl.map (fun e =>
      if e.1 = user_id then
        (e.1, scoutUpdate first_name last_name scouting_member_id patrol
          birthdate now e.2)
      else e)
  | none =>
    tbl ++ [(user_id,
      { firstName := first_name
        lastName := last_name
        scoutingMemberId := scouting_member_id
        patrol := patrol
        currentRankId := none
        birthdate := birthdate
        lastSyncedAt := some now })]

theorem Table.lookup_cons {κ ρ : Type} [DecidableEq κ] (e : κ × ρ)
    (rest : Table κ ρ) (k : κ) :
    Table.lookup (e :: rest) k =
      if e.1 = k then some e.2 else Table.lookup rest k := by
  by_cases h : e.1 = k <;> simp [Table.lookup, List.find?_cons, h]

theorem lookup_map_update {κ ρ : Type} [DecidableEq κ] (u : κ) (g : ρ → ρ) :
    ∀ tbl : Table κ ρ,
      Table.lookup (tbl.map (fun e => if e.1 = u then (e.1, g e.2) else e)) u =
        (Table.lookup tbl u).map g := by
  intro tbl
  induction tbl with
  | nil => rfl
  | cons e rest ih =>
    by_cases he : e.1 = u
    · simp [List.map_cons, he, Table.lookup_cons]
    · simp [List.map_cons, he, Table.lookup_cons, ih]

theorem lookup_map_update_ne {κ ρ : Type} [DecidableEq κ] (u k : κ) (hk : k ≠ u)
    (g : ρ → ρ) : ∀ tbl : Table κ ρ,
      Table.lookup (tbl.map (fun e => if e.1 = u then (e.1, g e.2) else e)) k =
        Table.lookup tbl k := by
  intro tbl
  induction tbl with
  | nil => rfl
  | cons e rest ih =>
    have hku : ¬u = k := fun h => hk h.symm
    by_cases he : e.1 = u
    · simp [List.map_cons, he, Table.lookup_cons, hku, ih]
    · by_cases hek : e.1 = k
      · simp [List.map_cons, he, Table.lookup_cons, hek, hku, hk]
      · simp [List.map_cons, he, Table.lookup_cons, hek, hku, hk, ih]

/-- C10: for an existing scout row, `upsert_scout` never overwrites a stored
field with a supplied `None` (each data column keeps its previous value,
null or not), never touches `current_rank_id`, unconditionally overwrites
`last_synced_at`, and leaves every other scout's row unchanged — so the
orchestrator's birthdate-only update preserves names, member id and patrol. -/
theorem c10_upsert_scout_preserves (u : String)
    (f l m p b : Option String) (now : String) (tbl : Table String ScoutRow)
    (r : ScoutRow) (hex : Table.lookup tbl u = some r) :
    ∃ r2 : ScoutRow,
      Table.lookup (upsert_scout u f l m p b now tbl) u = some r2 ∧
      (f = none → r2.firstName = r.firstName) ∧
      (l = none → r2.lastName = r.lastName) ∧
      (m = none → r2.scoutingMemberId = r.scoutingMemberId) ∧
      (p = none → r2.patrol = r.patrol) ∧
      (b = none → r2.birthdate = r.birthdate) ∧
      r2.currentRankId = r.currentRankId ∧
      r2.lastSyncedAt = some now ∧
      (∀ k, k ≠ u →
        Table.lookup (upsert_scout u f l m p b now tbl) k = Table.lookup tbl k) := by
  refine ⟨scoutUpdate f l m p b now r, ?_, ?_, ?_, ?_, ?_, ?_, rfl, rfl, ?_⟩
  · rw [upsert_scout, hex, lookup_map_update, hex]
    rfl
  · intro h; simp [h, scoutUpdate, coalesce]
  · intro h; simp [h, scoutUpdate, coalesce]
  · intro h; simp [h, scoutUpdate, coalesce]
  · intro h; simp [h, scoutUpdate, coalesce]
  · intro h; simp [h, scoutUpdate, coalesce]
  · intro k hk
    rw [upsert_scout, hex, lookup_map_update_ne u k hk]

/-! ### The sync orchestrators (cli.py `cmd_sync_scouts` and
native_sync.py `main`)

The scout loop is modelled at the granularity of its per-entity fetch
phases.  For each scout the loop attempts, in the orchestrator's order, the
authenticated fetches; each attempted call either succeeds (`none`) or
raises `ScoutingAPIError` with a status code (`some code`).  What each
`except` handler does is read off the source: whether it checks for 401 and
aborts (`_abort_if_unauthorized` in cli.py; the explicit check in
native_sync.py's ranks handler), and whether it writes a per-entity log line
for other codes.  The per-requirement phases run only when the fetch they
depend on succeeded (`ranks_data` / `mb_data` is set); `--skip-reqs` is
taken as off. -/

inductive Phase : Type where
  | ranks | rankReqs | mbs | leadership | profile | mbReqs
deriving DecidableEq, Repr

inductive SyncEvent : Type where
  | fetched (scout : Nat) (p : Phase)
  | loggedError (scout : Nat) (p : Phase) (code : Int)
  | warnedValidation (code : Int)
  | abortTokenExpired
deriving DecidableEq, Repr

/-- A loop configuration: the phase order and what each phase's `except`
handler does. -/
structure LoopCfg where
  order : List Phase
  logsOn : Phase → Bool
  abortOn401 : Phase → Bool

/-- cli.py `cmd_sync_scouts`: every handler calls `_abort_if_unauthorized`;
the ranks/mbs/leadership/profile handlers then echo an inline error token,
while the per-requirement handlers continue silently. -/
def cliCfg : LoopCfg :=
  { order := [.ranks, .rankReqs, .mbs, .leadership, .profile, .mbReqs]
    logsOn := fun p =>
      match p with
      | .rankReqs => false
      | .mbReqs => false
      | _ => true
    abortOn401 := fun _ => true }

/-- native_sync.py `main`: only the ranks handler checks for 401 and exits;
the merit-badge handler logs every code (401 included) and continues; the
per-requirement, leadership and profile handlers swallow errors silently. -/
def nativeCfg : LoopCfg :=
  { order := [.ranks, .rankReqs, .mbs, .mbReqs, .leadership, .profile]
    logsOn := fun p =>
      match p with
      | .ranks => true
      | .mbs => true
      | _ => false
    abortOn401 := fun p =>
      match p with
      | .ranks => true
      | _ => false }

/-- The per-requirement phases run only when their prerequisite fetch
succeeded (`if not skip_reqs and ranks_data:` / `if not skip_reqs and
mb_data:`). -/
def phaseExecuted (res : Phase → Option Int) : Phase → Bool
  | .rankReqs => (res .ranks).isNone
  | .mbReqs => (res .mbs).isNone
  | _ => true

/-- Run one scout's phases, producing the trace of attempted fetches,
per-entity error logs, and a possible abort (which stops everything). -/
def runPhases (cfg : LoopCfg) (s : Nat) (res : Phase → Option Int) :
    List Phase → List SyncEvent × Bool
  | [] => ([], false)
  | p :: rest =>
    if phaseExecuted res p then
      match res p with
      | none =>
        ((.fetched s p) :: (runPhases cfg s res rest).1,
         (runPhases cfg s res rest).2)
      | some c =>
        if c = 401 ∧ cfg.abortOn401 p = true then
          ([.fetched s p, .abortTokenExpired], true)
        else
          ((.fetched s p) ::
            ((if cfg.logsOn p then [.loggedError s p c] else []) ++
              (runPhases cfg s res rest).1),
           (runPhases cfg s res rest).2)
    else runPhases cfg s res rest

/-- Run the scout loop; an abort during one scout stops the loop before any
later scout is touched. -/
def runScouts (cfg : LoopCfg) (res : Nat → Phase → Option Int) :
    List Nat → List SyncEvent × Bool
  | [] => ([], false)
  | s :: ss =>
    if (runPhases cfg s (res s) cfg.order).2 then
      ((runPhases cfg s (res s) cfg.order).1, true)
    else
      ((runPhases cfg s (res s) cfg.order).1 ++ (runScouts cfg res ss).1,
       (runScouts cfg res ss).2)

/-- cli.py `cmd_sync_scouts`: validate the token first
(`api.validate_token` inside `try`); a 401 there aborts via
`_abort_if_unauthorized` before any scout; any other error code echoes the
"proceeding anyway" warning and the loop runs. -/
def cmd_sync_scouts (validation : Option Int) (res : Nat → Phase → Option Int)
    (scouts : List Nat) : List SyncEvent × Bool :=
  match validation with
  | none => runScouts cliCfg res scouts
  | some c =>
    if c = 401 then ([.abortTokenExpired], true)
    else
      ((.warnedValidation c) :: (runScouts cliCfg res scouts).1,
       (runScouts cliCfg res scouts).2)

/-- native_sync.py `main`, step 5 (the advancement loop, after
authentication and rank-definition sync). -/
def native_sync_loop (res : Nat → Phase → Option Int) (scouts : List Nat) :
    List SyncEvent × Bool :=
  runScouts nativeCfg res scouts

/-! Properties of a loop whose every handler aborts on 401 (the cli one). -/

theorem runPhases_no_log401 (cfg : LoopCfg) (hab : ∀ p, cfg.abortOn401 p = true)
    (s : Nat) (res : Phase → Option Int) :
    ∀ (order : List Phase) (s2 : Nat) (p2 : Phase) (c : Int),
      SyncEvent.loggedError s2 p2 c ∈ (runPhases cfg s res order).1 → c ≠ 401 := by
  intro order
  induction order with
  | nil => intro s2 p2 c h; simp [runPhases] at h
  | cons p rest ih =>
    intro s2 p2 c h
    by_cases hex : phaseExecuted res p = true
    · rw [runPhases, if_pos hex] at h
      cases hres : res p with
      | none =>
        rw [hres] at h
        dsimp only at h
        rcases List.mem_cons.mp h with h | h
        · simp at h
        · exact ih s2 p2 c h
      | some code =>
        rw [hres] at h
        dsimp only at h
        by_cases h401 : code = 401 ∧ cfg.abortOn401 p = true
        · rw [if_pos h401] at h
          simp at h
        · rw [if_neg h401] at h
          rcases List.mem_cons.mp h with h | h
          · simp at h
          · rcases List.mem_append.mp h with h | h
            · by_cases hlog : cfg.logsOn p = true
              · rw [if_pos hlog] at h
                simp at h
                intro hc
                exact h401 ⟨h.2.2 ▸ hc ▸ rfl, hab p⟩
              · rw [if_neg hlog] at h
                simp at h
            · exact ih s2 p2 c h
    · rw [runPhases, if_neg hex] at h
      exact ih s2 p2 c h

theorem runPhases_scout_events (cfg : LoopCfg) (s : Nat) (res : Phase → Option Int) :
    ∀ (order : List Phase) (s2 : Nat) (p2 : Phase),
      SyncEvent.fetched s2 p2 ∈ (runPhases cfg s res order).1 → s2 = s := by
  intro order
  induction order with
  | nil => intro s2 p2 h; simp [runPhases] at h
  | cons p rest ih =>
    intro s2 p2 h
    by_cases hex : phaseExecuted res p = true
    · rw [runPhases, if_pos hex] at h
      cases hres : res p with
      | none =>
        rw [hres] at h
        dsimp only at h
        rcases List.mem_cons.mp h with h | h
        · exact (SyncEvent.fetched.injEq _ _ _ _).mp h |>.1
        · exact ih s2 p2 h
      | some code =>
        rw [hres] at h
        dsimp only at h
        by_cases h401 : code = 401 ∧ cfg.abortOn401 p = true
        · rw [if_pos h401] at h
          simp at h
          exact h.1
        · rw [if_neg h401] at h
          rcases List.mem_cons.mp h with h | h
          · exact (SyncEvent.fetched.injEq _ _ _ _).mp h |>.1
          · rcases List.mem_append.mp h with h | h
            · by_cases hlog : cfg.logsOn p = true <;>
                simp [hlog] at h
            · exact ih s2 p2 h
    · rw [runPhases, if_neg hex] at h
      exact ih s2 p2 h

theorem runPhases_completed_no401 (cfg : LoopCfg)
    (hab : ∀ p, cfg.abortOn401 p = true) (s : Nat) (res : Phase → Option Int) :
    ∀ (order : List Phase), (runPhases cfg s res order).2 = false →
      ∀ p2, SyncEvent.fetched s p2 ∈ (runPhases cfg s res order).1 →
        res p2 ≠ some 401 := by
  intro order
  induction order with
  | nil => intro hc p2 h; simp [runPhases] at h
  | cons p rest ih =>
    intro hc p2 h
    by_cases hex : phaseExecuted res p = true
    · rw [runPhases, if_pos hex] at h hc
      cases hres : res p with
      | none =>
        rw [hres] at h hc
        dsimp only at h hc
        rcases List.mem_cons.mp h with h | h
        · have : p2 = p := ((SyncEvent.fetched.injEq _ _ _ _).mp h).2
          rw [this, hres]
          simp
        · exact ih hc p2 h
      | some code =>
        rw [hres] at h hc
        dsimp only at h hc
        by_cases h401 : code = 401 ∧ cfg.abortOn401 p = true
        · rw [if_pos h401] at hc
          simp at hc
        · rw [if_neg h401] at h hc
          rcases List.mem_cons.mp h with h | h
          · have hp : p2 = p := ((SyncEvent.fetched.injEq _ _ _ _).mp h).2
            rw [hp, hres]
            intro hcode
            have : code = 401 := by
              have := (Option.some.injEq _ _).mp hcode
              omega
            exact h401 ⟨this, hab p⟩
          · rcases List.mem_append.mp h with h | h
            · by_cases hlog : cfg.logsOn p = true <;> simp [hlog] at h
            · exact ih hc p2 h
    · rw [runPhases, if_neg hex] at h hc
      exact ih hc p2 h

theorem runPhases_aborted_has401 (cfg : LoopCfg) (s : Nat)
    (res : Phase → Option Int) :
    ∀ (order : List Phase), (runPhases cfg s res order).2 = true →
      ∃ p2, SyncEvent.fetched s p2 ∈ (runPhases cfg s res order).1 ∧
        res p2 = some 401 := by
  intro order
  induction order with
  | nil => intro hc; simp [runPhases] at hc
  | cons p rest ih =>
    intro hc
    by_cases hex : phaseExecuted res p = true
    · rw [runPhases, if_pos hex] at hc ⊢
      cases hres : res p with
      | none =>
        rw [hres] at hc
        dsimp only at hc ⊢
        obtain ⟨p2, hmem, h401⟩ := ih hc
        exact ⟨p2, List.mem_cons_of_mem _ hmem, h401⟩
      | some code =>
        rw [hres] at hc
        dsimp only at hc ⊢
        by_cases h401 : code = 401 ∧ cfg.abortOn401 p = true
        · rw [if_pos h401] at hc ⊢
          exact ⟨p, by simp, by rw [hres, h401.1]⟩
        · rw [if_neg h401] at hc ⊢
          obtain ⟨p2, hmem, hp401⟩ := ih hc
          refine ⟨p2, ?_, hp401⟩
          exact List.mem_cons_of_mem _ (List.mem_append_right _ hmem)
    · rw [runPhases, if_neg hex] at hc ⊢
      exact ih hc

theorem runScouts_no_log401 (cfg : LoopCfg) (hab : ∀ p, cfg.abortOn401 p = true)
    (res : Nat → Phase → Option Int) :
    ∀ (scouts : List Nat) (s2 : Nat) (p2 : Phase) (c : Int),
      SyncEvent.loggedError s2 p2 c ∈ (runScouts cfg res scouts).1 → c ≠ 401 := by
  intro scouts
  induction scouts with
  | nil => intro s2 p2 c h; simp [runScouts] at h
  | cons s ss ih =>
    intro s2 p2 c h
    by_cases hab2 : (runPhases cfg s (res s) cfg.order).2 = true
    · rw [runScouts, if_pos hab2] at h
      exact runPhases_no_log401 cfg hab s (res s) cfg.order s2 p2 c h
    · rw [runScouts, if_neg hab2] at h
      rcases List.mem_append.mp h with h | h
      · exact runPhases_no_log401 cfg hab s (res s) cfg.order s2 p2 c h
      · exact ih s2 p2 c h

theorem runScouts_completed_no401 (cfg : LoopCfg)
    (hab : ∀ p, cfg.abortOn401 p = true) (res : Nat → Phase → Option Int) :
    ∀ (scouts : List Nat), (runScouts cfg res scouts).2 = false →
      ∀ s2 p2, SyncEvent.fetched s2 p2 ∈ (runScouts cfg res scouts).1 →
        res s2 p2 ≠ some 401 := by
  intro scouts
  induction scouts with
  | nil => intro hc s2 p2 h; simp [runScouts] at h
  | cons s ss ih =>
    intro hc s2 p2 h
    by_cases hab2 : (runPhases cfg s (res s) cfg.order).2 = true
    · rw [runScouts, if_pos hab2] at hc
      simp at hc
    · rw [runScouts, if_neg hab2] at h hc
      rcases List.mem_append.mp h with h | h
      · have hs : s2 = s := runPhases_scout_events cfg s (res s) cfg.order s2 p2 h
        subst hs
        exact runPhases_completed_no401 cfg hab s2 (res s2) cfg.order
          (by simpa using hab2) p2 h
      · exact ih hc s2 p2 h

theorem runScouts_aborted_at_first_401 (cfg : LoopCfg)
    (res : Nat → Phase → Option Int) :
    ∀ (scouts : List Nat), (runScouts cfg res scouts).2 = true →
      ∃ (s : Nat) (pre post : List Nat), scouts = pre ++ s :: post ∧
        (∃ p, SyncEvent.fetched s p ∈ (runScouts cfg res scouts).1 ∧
          res s p = some 401) ∧
        (∀ s2 p2, SyncEvent.fetched s2 p2 ∈ (runScouts cfg res scouts).1 →
          s2 ∈ pre ∨ s2 = s) := by
  intro scouts
  induction scouts with
  | nil => intro hc; simp [runScouts] at hc
  | cons s ss ih =>
    intro hc
    by_cases hab2 : (runPhases cfg s (res s) cfg.order).2 = true
    · rw [runScouts, if_pos hab2] at hc ⊢
      obtain ⟨p, hmem, h401⟩ := runPhases_aborted_has401 cfg s (res s) cfg.order hab2
      refine ⟨s, [], ss, rfl, ⟨p, hmem, h401⟩, ?_⟩
      intro s2 p2 h2
      exact Or.inr (runPhases_scout_events cfg s (res s) cfg.order s2 p2 h2)
    · rw [runScouts, if_neg hab2] at hc ⊢
      dsimp only at hc ⊢
      obtain ⟨s1, pre, post, hdecomp, ⟨p, hmem, h401⟩, hbound⟩ := ih hc
      refine ⟨s1, s :: pre, post, by rw [hdecomp]; simp, ⟨p, ?_, h401⟩, ?_⟩
      · exact List.mem_append_right _ hmem
      · intro s2 p2 h2
        rcases List.mem_append.mp h2 with h2 | h2
        · have hs : s2 = s := runPhases_scout_events cfg s (res s) cfg.order s2 p2 h2
          exact Or.inl (by simp [hs])
        · rcases hbound s2 p2 h2 with hb | hb
          · exact Or.inl (List.mem_cons_of_mem _ hb)
          · exact Or.inr hb

/-- C2 (amended): in the interactive CLI orchestrator (`cmd_sync_scouts`)
whose initial token check has passed, a 401 from any executed per-entity
call always aborts the run — a completed run has seen no 401, an aborted run
stops during the scout whose call returned 401 (no later scout has any
fetch), and a 401 is never written to a per-entity error log line.  (The
native orchestrator does not satisfy this; see the counterexample.) -/
theorem c2_cli_401_always_aborts (res : Nat → Phase → Option Int)
    (scouts : List Nat) :
    (∀ s2 p2 c, SyncEvent.loggedError s2 p2 c ∈
        (cmd_sync_scouts none res scouts).1 → c ≠ 401) ∧
    ((cmd_sync_scouts none res scouts).2 = false →
      ∀ s2 p2, SyncEvent.fetched s2 p2 ∈ (cmd_sync_scouts none res scouts).1 →
        res s2 p2 ≠ some 401) ∧
    ((cmd_sync_scouts none res scouts).2 = true →
      ∃ (s : Nat) (pre post : List Nat), scouts = pre ++ s :: post ∧
        (∃ p, SyncEvent.fetched s p ∈ (cmd_sync_scouts none res scouts).1 ∧
          res s p = some 401) ∧
        (∀ s2 p2, SyncEvent.fetched s2 p2 ∈ (cmd_sync_scouts none res scouts).1 →
          s2 ∈ pre ∨ s2 = s)) := by
  have hab : ∀ p, cliCfg.abortOn401 p = true := fun _ => rfl
  exact ⟨runScouts_no_log401 cliCfg hab res scouts,
    runScouts_completed_no401 cliCfg hab res scouts,
    runScouts_aborted_at_first_401 cliCfg res scouts⟩

/-- The call results of the C2 counterexample: the first scout's merit-badge
fetch returns 401, everything else succeeds. -/
def c2res : Nat → Phase → Option Int :=
  fun s p => if s = 0 ∧ p = Phase.mbs then some 401 else none

/-- C2 counterexample: in the native orchestrator's loop, a 401 from the
merit-badge fetch of scout 0 is written to a per-entity log line, the loop
goes on to fetch scout 1's ranks, and the run does not abort — refuting the
claim for the native sync orchestrator. -/
theorem c2_counterexample :
    SyncEvent.loggedError 0 Phase.mbs 401 ∈ (native_sync_loop c2res [0, 1]).1 ∧
    SyncEvent.fetched 1 Phase.ranks ∈ (native_sync_loop c2res [0, 1]).1 ∧
    (native_sync_loop c2res [0, 1]).2 = false := by
  refine ⟨?_, ?_, ?_⟩ <;>
    simp [native_sync_loop, runScouts, runPhases, nativeCfg, phaseExecuted, c2res]

/-- C6 (amended): when the pre-loop token validation call fails, the CLI
orchestrator aborts immediately only on status 401; on every other status
code — 403 included — it logs the "proceeding anyway" warning and runs the
scout loop. -/
theorem c6_validation_only_401_aborts (res : Nat → Phase → Option Int)
    (scouts : List Nat) (c : Int) :
    (c = 401 → cmd_sync_scouts (some c) res scouts =
      ([SyncEvent.abortTokenExpired], true)) ∧
    (c ≠ 401 → cmd_sync_scouts (some c) res scouts =
      ((SyncEvent.warnedValidation c) :: (runScouts cliCfg res scouts).1,
       (runScouts cliCfg res scouts).2)) := by
  constructor
  · intro h; simp [cmd_sync_scouts, h]
  · intro h; simp [cmd_sync_scouts, h]

/-- C6 counterexample: a 403 from the validation call does not abort — the
run warns and proceeds into the scout loop (scout 0's ranks are fetched),
refuting "abort immediately if the status code is 401 or 403". -/
theorem c6_counterexample :
    (cmd_sync_scouts (some 403) (fun _ _ => none) [0]).2 = false ∧
    SyncEvent.warnedValidation 403 ∈
      (cmd_sync_scouts (some 403) (fun _ _ => none) [0]).1 ∧
    SyncEvent.fetched 0 Phase.ranks ∈
      (cmd_sync_scouts (some 403) (fun _ _ => none) [0]).1 := by
  refine ⟨?_, ?_, ?_⟩ <;>
    simp [cmd_sync_scouts, runScouts, runPhases, cliCfg, phaseExecuted]

/-! ### Witnesses: each hypothesis-bearing claim theorem applied at a
concrete input. -/

/-- A two-level requirement tree for the C5 witness. -/
def c5tree : RTree :=
  RTree.node (some 1) {} none none [RTree.node (some 2) {} none none [] []] []

def c5input : ReqPayload := ReqPayload.list [c5tree]

theorem c5_parent_reference_witness :
    ((reqShape 5 2 (some 1) (RTree.node (some 2) {} none none [] [])) ∈
        upsert_requirements_writes 5 c5input) ∧
    (∃ (addr : List Nat) (t : RTree) (v : Int),
      getNode (unwrapPayload c5input) addr = some t ∧
      pathKept (unwrapPayload c5input) addr = true ∧ addr ≠ [] ∧
      t.identOf = some v ∧ v ≠ 0 ∧
      (reqShape 5 2 (some 1) (RTree.node (some 2) {} none none [] [])).1 = v ∧
      (reqShape 5 2 (some 1) (RTree.node (some 2) {} none none [] [])).2.parentRequirementId =
        (match addr with
         | [_] => none
         | _ => parentAt (unwrapPayload c5input) addr)) := by
  have hmem : (reqShape 5 2 (some 1) (RTree.node (some 2) {} none none [] [])) ∈
      upsert_requirements_writes 5 c5input := by
    simp [upsert_requirements_writes, defnWrites, unwrapPayload, c5input, c5tree,
      intOrNone]
  exact ⟨hmem, (c5_parent_reference 5 7 "v1" c5input).1 _ hmem⟩

theorem c3_current_rank_is_max_id_witness :
    (∃ i ∈ qualifyingBsaIds c3resp, 0 < i) ∧
    (∃ M : Int, M ∈ qualifyingBsaIds c3resp ∧
      (∀ i ∈ qualifyingBsaIds c3resp, i ≤ M) ∧
      (store_youth_ranks "U1" c3resp c3db).1.scouts = c3db.scouts.map (fun e =>
        if e.1 = "U1" then (e.1, { e.2 with currentRankId := some M }) else e)) := by
  have hpos : ∃ i ∈ qualifyingBsaIds c3resp, 0 < i := by
    refine ⟨5, ?_, by omega⟩
    simp [qualifyingBsaIds, ranksQualIds, qualRanks, c3resp, pyStrTruthy]
  exact ⟨hpos, c3_current_rank_is_max_id "U1" c3resp c3db hpos⟩

/-- A response whose single program-2 rank has no completion date, and a
database with one scout, for the C7 witness. -/
def c7resp : RanksResponse :=
  { program := [
      { programId := some 2
        program := some "Scouts BSA"
        ranks := [
          { ident := some 4, name := some "Star", level := some 4,
            dateEarned := none, raw := "r4" }] }] }

theorem c7_current_rank_preserved_witness :
    (∀ p ∈ c7resp.program, p.programId.getD 0 = 2 →
      ∀ r ∈ p.ranks, r.dateEarned = none) ∧
    (store_youth_ranks "U1" c7resp c3db).1.scouts = c3db.scouts := by
  have hno : ∀ p ∈ c7resp.program, p.programId.getD 0 = 2 →
      ∀ r ∈ p.ranks, r.dateEarned = none := by
    intro p hp _ r hr
    simp [c7resp] at hp
    subst hp
    simp [c7resp] at hr
    subst hr
    rfl
  exact ⟨hno, c7_current_rank_preserved "U1" c7resp c3db hno⟩

def c8body : AuthBody := { token := some "tok", account := none }

theorem c8_token_error_iff_witness :
    (authenticate c8body = .ok ("tok", none)) ∧
    (c8body.token = some "tok" ∧ "tok" ≠ "" ∧
      (none : Option Int) = (c8body.account.getD { userId := none }).userId) := by
  exact ⟨rfl, (c8_token_error_iff c8body).2 "tok" none rfl⟩

def c9pos : LeadPos := { positionTitle := some "Senior Patrol Leader" }

theorem c9_store_leadership_not_idempotent_witness :
    (([c9pos] : List LeadPos) ≠ [] ∧ leadCountFor "U1" [] = 0) ∧
    ((store_leadership "U1" (.list [c9pos]) []).2 = 1 ∧
     (store_leadership "U1" (.list [c9pos])
        (store_leadership "U1" (.list [c9pos]) []).1).2 = 1 ∧
     leadCountFor "U1"
        (store_leadership "U1" (.list [c9pos])
          (store_leadership "U1" (.list [c9pos]) []).1).1 = 2) := by
  have h := c9_store_leadership_not_idempotent "U1" [c9pos] [] (by simp) rfl
  exact ⟨⟨by simp, rfl⟩, h⟩

def c10row : ScoutRow :=
  { firstName := some "Alice", lastName := some "Scout",
    scoutingMemberId := some "M1", patrol := some "Hawks",
    currentRankId := some 3, birthdate := none, lastSyncedAt := some "t0" }

theorem c10_upsert_scout_preserves_witness :
    (Table.lookup [("U1", c10row)] "U1" = some c10row) ∧
    (∃ r2 : ScoutRow,
      Table.lookup (upsert_scout "U1" none none none none (some "2011-05-04") "t1"
        [("U1", c10row)]) "U1" = some r2 ∧
      ((none : Option String) = none → r2.firstName = c10row.firstName) ∧
      ((none : Option String) = none → r2.lastName = c10row.lastName) ∧
      ((none : Option String) = none → r2.scoutingMemberId = c10row.scoutingMemberId) ∧
      ((none : Option String) = none → r2.patrol = c10row.patrol) ∧
      ((some "2011-05-04" : Option String) = none → r2.birthdate = c10row.birthdate) ∧
      r2.currentRankId = c10row.currentRankId ∧
      r2.lastSyncedAt = some "t1" ∧
      (∀ k, k ≠ "U1" →
        Table.lookup (upsert_scout "U1" none none none none (some "2011-05-04") "t1"
          [("U1", c10row)]) k = Table.lookup [("U1", c10row)] k)) := by
  have hex : Table.lookup [("U1", c10row)] "U1" = some c10row := rfl
  exact ⟨hex, c10_upsert_scout_preserves "U1" none none none none (some "2011-05-04")
    "t1" [("U1", c10row)] c10row hex⟩

/-- Call results where scout 0's ranks fetch returns 401, for the C2 witness. -/
def c2resW : Nat → Phase → Option Int :=
  fun s p => if s = 0 ∧ p = Phase.ranks then some 401 else none

theorem c2_cli_401_always_aborts_witness :
    ((cmd_sync_scouts none c2resW [0, 1]).2 = true) ∧
    (∃ (s : Nat) (pre post : List Nat), [0, 1] = pre ++ s :: post ∧
      (∃ p, SyncEvent.fetched s p ∈ (cmd_sync_scouts none c2resW [0, 1]).1 ∧
        c2resW s p = some 401) ∧
      (∀ s2 p2, SyncEvent.fetched s2 p2 ∈ (cmd_sync_scouts none c2resW [0, 1]).1 →
        s2 ∈ pre ∨ s2 = s)) := by
  have hab : (cmd_sync_scouts none c2resW [0, 1]).2 = true := by
    simp [cmd_sync_scouts, runScouts, runPhases, cliCfg, phaseExecuted, c2resW]
  exact ⟨hab, (c2_cli_401_always_aborts c2resW [0, 1]).2.2 hab⟩

theorem c6_validation_only_401_aborts_witness :
    ((401 : Int) = 401 ∧ cmd_sync_scouts (some 401) (fun _ _ => none) [0] =
      ([SyncEvent.abortTokenExpired], true)) ∧
    ((403 : Int) ≠ 401 ∧ cmd_sync_scouts (some 403) (fun _ _ => none) [0] =
      ((SyncEvent.warnedValidation 403) ::
        (runScouts cliCfg (fun _ _ => none) [0]).1,
       (runScouts cliCfg (fun _ _ => none) [0]).2)) := by
  constructor
  · exact ⟨rfl, (c6_validation_only_401_aborts (fun _ _ => none) [0] 401).1 rfl⟩
  · exact ⟨by decide, (c6_validation_only_401_aborts (fun _ _ => none) [0] 403).2
      (by decide)⟩

end Scouting
